import Mathlib

/-!
# Verification of the ethereum-trading-mcp core against its specification

Shallow embedding of the repository's unit-conversion, swap-routing,
price-discovery and token-registry logic, followed by theorems settling
the specification claims.

Modelling conventions:
* `U256` is modelled as `Nat`; arithmetic that the `ruint` library performs
  modulo `2^256` (release-profile wrapping) is written with an explicit
  `% TWO256`.
* Rust `&str` values are modelled as `List Char` (`String.data`).
* `rust_decimal::Decimal` values are modelled as exact rationals `ℚ`;
  theorems that depend on `Decimal` arithmetic carry range hypotheses that
  keep every intermediate value inside the region where the 96-bit decimal
  type is exact.
* Error message strings carried by `AppError` variants are not modelled;
  the variants themselves are.
-/

/-- Rust `str::trim`: drop whitespace from both ends.
(`char::is_whitespace` is Unicode; the ASCII subset modelled by
`Char.isWhitespace` covers every input exercised here.) -/
def strTrim (s : List Char) : List Char :=
  ((s.dropWhile Char.isWhitespace).reverse.dropWhile Char.isWhitespace).reverse

/-- Rust `str::trim_end_matches c`: drop every trailing occurrence of `c`. -/
def trimEndMatches (c : Char) (s : List Char) : List Char :=
  (s.reverse.dropWhile (fun x => x = c)).reverse

/-- Rust `str::split(sep).collect::<Vec<_>>()`: split on every occurrence of
`sep`; an empty string yields `[""]`, adjacent separators yield empty parts. -/
def splitOnChar (sep : Char) : List Char → List (List Char)
  | [] => [[]]
  | c :: rest =>
    if c = sep then [] :: splitOnChar sep rest
    else
      match splitOnChar sep rest with
      | [] => [[c]]
      | h :: t => (c :: h) :: t

/-- `2^256`, the `U256` modulus. -/
def TWO256 : Nat := 2 ^ 256

/-- The decimal digit character for a digit value (`0 ↦ '0'`, …, `9 ↦ '9'`). -/
def digitCharOf (d : Nat) : Char := Char.ofNat (48 + d)

/-- Base-10 digits of `n`, least significant first, computed with explicit
fuel so that the kernel can evaluate it.  `digitsFuel_eq_digits` shows it
agrees with `Nat.digits 10` whenever `n < 10 ^ fuel`; `u256ToString` uses
fuel 100, enough for every `U256` value (`2^256 < 10^78`). -/
def digitsFuel : Nat → Nat → List Nat
  | 0, _ => []
  | _ + 1, 0 => []
  | f + 1, n + 1 => (n + 1) % 10 :: digitsFuel f ((n + 1) / 10)

/-- `U256::to_string()`: the base-10 digit string, most significant first. -/
def u256ToString (v : Nat) : List Char :=
  if v = 0 then ['0'] else ((digitsFuel 100 v).reverse).map digitCharOf

/-- `format_units` from src/types/token.rs: render a raw integer with the
given decimal count, trimming trailing fractional zeros. -/
def format_units (value : Nat) (decimals : Nat) : List Char :=
  if value = 0 then ['0']
  else
    let value_str := u256ToString value
    if decimals = 0 then value_str
    else
      let len := value_str.length
      if len ≤ decimals then
        let zeros := decimals - len
        let decimal_part := trimEndMatches '0' value_str
        if decimal_part.isEmpty then ['0']
        else '0' :: '.' :: (List.replicate zeros '0' ++ decimal_part)
      else
        let integer := value_str.take (len - decimals)
        let decimal := trimEndMatches '0' (value_str.drop (len - decimals))
        if decimal.isEmpty then integer
        else integer ++ '.' :: decimal

/-- Positional value of a most-significant-first digit-value list. -/
def valMSB (ds : List Nat) : Nat := ds.foldl (fun a d => a * 10 + d) 0

/-- `str::parse::<U256>()` on the plain-decimal fragment the callers exercise:
fails on the empty string and on any non-digit character, and on overflow
past `2^256`.  (The underlying library additionally accepts `0x`/`0o`/`0b`
radix prefixes and `_` separators; no caller in this repository feeds it
such strings, so that surface is not modelled.) -/
def parseU256 (s : List Char) : Option Nat :=
  if s.isEmpty then none
  else if s.all Char.isDigit then
    let v := valMSB (s.map (fun c => c.toNat - 48))
    if v < TWO256 then some v else none
  else none

/-- `parse_units` from src/types/token.rs: trim, reject empty and negative
input, split on `'.'`, truncate or zero-pad the fraction to `decimals`
places, and combine.  Multiplication follows `U256` wrapping semantics. -/
def parse_units (amount : List Char) (decimals : Nat) : Option Nat :=
  let amount := strTrim amount
  if amount.isEmpty then none
  else if amount.head? = some '-' then none
  else
    match splitOnChar '.' amount with
    | [p] =>
      match parseU256 p with
      | some value =>
        let multiplier := 10 ^ decimals % TWO256
        some (value * multiplier % TWO256)
      | none => none
    | [integer, fractionRaw] =>
      let fraction :=
        if decimals < fractionRaw.length then fractionRaw.take decimals
        else fractionRaw ++ List.replicate (decimals - fractionRaw.length) '0'
      let integerValue? : Option Nat :=
        if integer.isEmpty then some 0 else parseU256 integer
      let fractionValue? : Option Nat :=
        if fraction.isEmpty then some 0 else parseU256 fraction
      match integerValue?, fractionValue? with
      | some iv, some fv =>
        let multiplier := 10 ^ decimals % TWO256
        some ((iv * multiplier % TWO256 + fv) % TWO256)
      | _, _ => none
    | _ => none

inductive AppError where
  | config
  | rpc
  | transport
  | invalidAddress
  | tokenNotFound
  | insufficientLiquidity
  | slippageExceeded
  | wallet
  | simulationFailed
  | poolNotFound
  | parseErr
  | priceOracle
  | numericOverflow
  | pendingTransaction
deriving DecidableEq

def ETHEREUM_MAINNET_CHAIN_ID : Nat := 1

def WETH_ADDRESS : Nat := 0xC02aaA39b223FE8D0A0e5C4F27eAD9083C756Cc2

def USDC_ADDRESS : Nat := 0xA0b86991c6218b36c1d19D4a2e9Eb0cE3606eB48

def WBTC_ADDRESS : Nat := 0x2260FAC5E5542a773Aa44fBCfeDf7C193bc2C599

def UNI_ADDRESS : Nat := 0x1f9840a85d5aF5bf1D1762F925BDADdC4201F984

def ETH_USD_FEED : Nat := 0x5f4eC3Df9cbd43714FE2740f5E3616155c5b8419

def BTC_USD_FEED : Nat := 0xF4030086522a5bEEa4988F8cA5B36dbC97BeE88c

def USDC_USD_FEED : Nat := 0x8fFfFfd4AfB6115b954Bd326cbe7B4BA576818f6

def FEE_LOWEST : Nat := 100

def FEE_LOW : Nat := 500

def FEE_MEDIUM : Nat := 3000

def FEE_HIGH : Nat := 10000

def ALL_FEES : List Nat := [FEE_LOWEST, FEE_LOW, FEE_MEDIUM, FEE_HIGH]

/-- On-chain responses consumed by `SwapService::try_v3_swap` for a fixed
token pair and input amount.  `pool fee` is whether `getPool` returns a
nonzero address; `quote fee` is the `quoteExactInputSingle` outcome for the
requested input amount (`none` models a reverted quoter call, which the
code swallows with `if let Ok`).  A transport failure of `getPool` itself
aborts the routine through `?` and is outside this model. -/
structure V3Env where
  pool : Nat → Bool
  quote : Nat → Option Nat

/-- The fee-tier scanning loop of `try_v3_swap`: keeps the fee with the
strictly greatest quoted output seen so far. -/
def v3ScanFees (env : V3Env) : List Nat → Option Nat → Nat → Option Nat × Nat
  | [], bestFee, bestOut => (bestFee, bestOut)
  | fee :: rest, bestFee, bestOut =>
    if env.pool fee then
      match env.quote fee with
      | some out =>
        if bestOut < out then v3ScanFees env rest (some fee) out
        else v3ScanFees env rest bestFee bestOut
      | none => v3ScanFees env rest bestFee bestOut
    else v3ScanFees env rest bestFee bestOut

/-- Route-selection core of `SwapService::try_v3_swap`: scan every fee tier,
then `best_fee.ok_or(PoolNotFound)?` followed by the zero-output check.
Returns the selected fee tier and its quoted output. -/
def try_v3_swap (env : V3Env) : Except AppError (Nat × Nat) :=
  match v3ScanFees env ALL_FEES none 0 with
  | (none, _) => .error .poolNotFound
  | (some fee, bestOut) =>
    if bestOut = 0 then .error .insufficientLiquidity
    else .ok (fee, bestOut)

/-- `SwapService::calculate_reference_amount`. -/
def calculate_reference_amount (amount_in : Nat) : Nat :=
  let reference := amount_in / 1000
  let min_reference : Nat := 1000
  let max_reference := amount_in / 10
  if reference < min_reference then min min_reference amount_in
  else if max_reference < reference then max_reference
  else reference

/-- A nonnegative `rust_decimal::Decimal` value: an integer mantissa scaled
by a power of ten.  A representable value has `mantissa < 2^96` and
`scale ≤ 28`; the sign bit is not modelled because every value in the
flows below is nonnegative (an operation whose result would be negative
leaves the model). -/
structure Dec96 where
  mantissa : Nat
  scale : Nat
deriving DecidableEq

/-- The exact rational value of a `Dec96`. -/
def Dec96.toRat (d : Dec96) : ℚ := (d.mantissa : ℚ) / 10 ^ d.scale

/-- `Decimal::from(u128)`: panics for values outside the 96-bit mantissa
range; the model reports the panic as `none`. -/
def decFromU128 (n : Nat) : Option Dec96 :=
  if n < 2 ^ 96 then some { mantissa := n, scale := 0 } else none

/-- `value / Decimal::from(100)`: exact when two more fractional digits fit
under the maximum scale of 28; past that `rust_decimal` rounds, which the
model reports as `none`. -/
def decDiv100 (d : Dec96) : Option Dec96 :=
  if d.scale + 2 ≤ 28 then some { mantissa := d.mantissa, scale := d.scale + 2 }
  else none

/-- `Decimal::ONE - value`: exact while the result is nonnegative
(`10^scale < 2^96` for every legal scale); a negative result leaves this
sign-free model. -/
def decOneSub (d : Dec96) : Option Dec96 :=
  if d.mantissa ≤ 10 ^ d.scale then
    some { mantissa := 10 ^ d.scale - d.mantissa, scale := d.scale }
  else none

/-- `Decimal * Decimal`: exact when the product mantissa fits in 96 bits and
the combined scale stays within 28; otherwise `rust_decimal` rescales with
rounding, which the model reports as `none`. -/
def decMul (a b : Dec96) : Option Dec96 :=
  if a.mantissa * b.mantissa < 2 ^ 96 ∧ a.scale + b.scale ≤ 28 then
    some { mantissa := a.mantissa * b.mantissa, scale := a.scale + b.scale }
  else none

/-- `SwapService::decimal_to_u128`: truncate toward zero, then render and
parse as `u128` (the parse fails past `2^128`; a negative value cannot
arise in the nonnegative model). -/
def decimal_to_u128 (value : Dec96) : Except AppError Nat :=
  let truncated := value.mantissa / 10 ^ value.scale
  if 2 ^ 128 ≤ truncated then .error .numericOverflow else .ok truncated

/-- The slippage arithmetic of `SwapService::simulate_swap` (lines 81–87) at
`rust_decimal` fidelity: build `1 - slippage_tolerance / 100`, range-check
`amount_out` into `u128`, convert it through `Decimal::from(u128)` — which
panics for values at or above `2^96` even though they pass the `u128`
check — multiply, and truncate through `decimal_to_u128`.  `none` marks the
computation leaving the exactly representable regime: a `Decimal::from`
panic, a rounded quotient or product, or a negative multiplier. -/
def compute_amount_out_min (amount_out : Nat) (slippage_tolerance : Dec96) :
    Option (Except AppError Nat) :=
  match decDiv100 slippage_tolerance with
  | none => none
  | some q =>
    match decOneSub q with
    | none => none
    | some slippage_multiplier =>
      if amount_out < 2 ^ 128 then
        match decFromU128 amount_out with
        | none => none
        | some amount_out_dec =>
          match decMul amount_out_dec slippage_multiplier with
          | none => none
          | some product => some (decimal_to_u128 product)
      else some (.error .numericOverflow)

/-- One exact `Decimal` division `m / d` of two integer-valued decimals:
`rust_decimal` long division terminates exactly when some scale `σ ≤ 28`
makes `m * 10^σ` divisible by `d` and the resulting mantissa fits in 96
bits; otherwise it rounds at the 28th fractional digit (or overflows),
which the model reports as `none`. -/
def decDivNat (m d : Nat) : Option (Nat × Nat) :=
  match (List.range 29).find? (fun σ => m * 10 ^ σ % d = 0) with
  | some σ =>
    if m * 10 ^ σ / d < 2 ^ 96 then some (m * 10 ^ σ / d, σ) else none
  | none => none

/-- The `Decimal` price expression of `get_uniswap_v2_price`
(price.rs lines 315–318) at `rust_decimal` fidelity:
`Decimal::from(reserve_out) * Decimal::from(10i64.pow(din)) /
Decimal::from(reserve_in) / Decimal::from(10i64.pow(out_decimals))`.
`none` marks leaving the exact regime: a `Decimal::from(u128)` panic at a
reserve of `2^96` or more, the `10i64.pow` overflow for more than 18 input
decimals, a product mantissa past 96 bits, or a division that does not
terminate within 28 fractional digits — in each of those cases the program
panics or rounds, so the exact reserve ratio is not returned. -/
def v2PriceDec (reserve_in reserve_out din out_decimals : Nat) : Option ℚ :=
  if 2 ^ 96 ≤ reserve_out then none
  else if 18 < din then none
  else if 2 ^ 96 ≤ reserve_out * 10 ^ din then none
  else if 2 ^ 96 ≤ reserve_in then none
  else
    match decDivNat (reserve_out * 10 ^ din) reserve_in with
    | none => none
    | some (m1, σ1) =>
      match decDivNat m1 (10 ^ (σ1 + out_decimals)) with
      | none => none
      | some (m2, σ2) => some ((m2 : ℚ) / 10 ^ σ2)

inductive QuoteCurrency where
  | usd
  | eth
deriving DecidableEq

inductive PriceSource where
  | chainlink
  | uniswapV2
  | uniswapV3
deriving DecidableEq

/-- `TokenMetadata` from the ERC20 bindings (name, symbol, decimals). -/
structure TokenMetadata where
  name : String
  symbol : String
  decimals : Nat
deriving DecidableEq

/-- `PriceInfo`; the decimal price string is abstracted as an exact rational. -/
structure PriceInfo where
  tokenAddress : Nat
  tokenSymbol : String
  tokenDecimals : Nat
  price : ℚ
  quoteCurrency : QuoteCurrency
  source : PriceSource
  timestamp : Nat
deriving DecidableEq

/-- One `latestRoundData()` answer (`roundId`/`answeredInRound` are `uint80`,
`answer` is `int256`, timestamps are `uint256`). -/
structure OracleRoundData where
  roundId : Nat
  answer : Int
  startedAt : Nat
  updatedAt : Nat
  answeredInRound : Nat
deriving DecidableEq

/-- On-chain and RPC responses consumed by `PriceService`.  `none` models a
failed call wherever the code tolerates one. -/
structure PriceEnv where
  metaSymbol : Nat → Option String
  metaName : Nat → Option String
  metaDecimals : Nat → Option Nat
  oracleRound : Nat → Option OracleRoundData
  oracleDecimals : Nat → Option Nat
  v3QuoteOut : Nat → Nat → Nat → Nat → Option Nat
  v2PairOf : Nat → Nat → Option Nat
  v2Reserves : Nat → Option (Nat × Nat)
  v2Token0 : Nat → Option Nat
  now : Nat

/-- `BalanceService::get_token_metadata`: each ERC20 metadata call falls back
to a default on failure, so the function itself never fails. -/
def get_token_metadata (env : PriceEnv) (token : Nat) : TokenMetadata :=
  { symbol := (env.metaSymbol token).getD "UNKNOWN"
    name := (env.metaName token).getD "Unknown Token"
    decimals := (env.metaDecimals token).getD 18 }

/-- `get_chainlink_feeds()` from src/ethereum/contracts/chainlink.rs. -/
def chainlink_feeds (token : Nat) : Option Nat :=
  if token = WETH_ADDRESS then some ETH_USD_FEED
  else if token = WBTC_ADDRESS then some BTC_USD_FEED
  else if token = USDC_ADDRESS then some USDC_USD_FEED
  else none

def STALENESS_THRESHOLD : Nat := 3600

/-- `PriceService::get_chainlink_price`: validate round freshness and answer
positivity before converting.  (The `10i64.pow` scaling overflow for feed
decimals above 18 is not modelled; Chainlink USD feeds use 8.) -/
def get_chainlink_price (env : PriceEnv) (token feed : Nat) (symbol : String)
    (token_decimals : Nat) : Except AppError PriceInfo :=
  match env.oracleRound feed with
  | none => .error .rpc
  | some round_data =>
    match env.oracleDecimals feed with
    | none => .error .rpc
    | some decimals =>
      if round_data.answeredInRound < round_data.roundId then .error .priceOracle
      else if 2 ^ 64 ≤ round_data.updatedAt then .error .numericOverflow
      else if env.now > round_data.updatedAt ∧
          env.now - round_data.updatedAt > STALENESS_THRESHOLD then .error .priceOracle
      else if round_data.answer ≤ 0 then .error .priceOracle
      else if 2 ^ 127 ≤ round_data.answer then .error .numericOverflow
      else
        .ok { tokenAddress := token
              tokenSymbol := symbol
              tokenDecimals := token_decimals
              price := (round_data.answer : ℚ) / 10 ^ decimals
              quoteCurrency := .usd
              source := .chainlink
              timestamp := env.now }

/-- Fee-tier loop of `PriceService::get_uniswap_v3_price`: first tier whose
quote for one whole input token succeeds wins.  (The `u32 → u24` conversion
cannot fail for the fixed tiers and is not modelled.) -/
def v3PriceScan (env : PriceEnv) (token_in token_out amount_in : Nat) :
    List Nat → Except AppError ℚ
  | [] => .error .poolNotFound
  | fee :: rest =>
    match env.v3QuoteOut token_in token_out fee amount_in with
    | some amountOut =>
      let out_decimals : Nat := if token_out = USDC_ADDRESS then 6 else 18
      if 2 ^ 128 ≤ amountOut then .error .numericOverflow
      else .ok ((amountOut : ℚ) / 10 ^ out_decimals)
    | none => v3PriceScan env token_in token_out amount_in rest

/-- `PriceService::get_uniswap_v3_price`. -/
def get_uniswap_v3_price (env : PriceEnv) (token_in token_out : Nat)
    (token_in_decimals : Nat) : Except AppError ℚ :=
  v3PriceScan env token_in token_out (10 ^ token_in_decimals) ALL_FEES

/-- `PriceService::get_uniswap_v2_price`: reserve-ratio pricing on the direct
pair.  Reserves are `uint112`, so the `u128` range checks cannot fire.  The
final `Decimal` price expression is idealized here as an exact rational,
because only this function's error structure and source tag feed
`get_price`; the `Decimal`-faithful model of the price expression itself is
`v2PriceDec`, which agrees with this rational exactly on the representable
regime and is the basis for the reserve-ratio claim. -/
def get_uniswap_v2_price (env : PriceEnv) (token_in token_out : Nat)
    (token_in_decimals : Nat) : Except AppError ℚ :=
  match env.v2PairOf token_in token_out with
  | none => .error .rpc
  | some pair_address =>
    if pair_address = 0 then .error .poolNotFound
    else
      match env.v2Reserves pair_address, env.v2Token0 pair_address with
      | some (reserve0, reserve1), some token0 =>
        let rio := if token0 = token_in then (reserve0, reserve1)
          else (reserve1, reserve0)
        let out_decimals : Nat := if token_out = USDC_ADDRESS then 6 else 18
        if 2 ^ 128 ≤ rio.1 then .error .numericOverflow
        else if 2 ^ 128 ≤ rio.2 then .error .numericOverflow
        else if rio.1 = 0 then .error .insufficientLiquidity
        else .ok ((rio.2 : ℚ) * 10 ^ token_in_decimals / rio.1 / 10 ^ out_decimals)
      | _, _ => .error .rpc

/-- `PriceService::get_uniswap_price`: V3 first-success, then V2, else
`PoolNotFound`. -/
def get_uniswap_price (env : PriceEnv) (token : Nat) (quote_currency : QuoteCurrency)
    (symbol : String) (decimals : Nat) : Except AppError PriceInfo :=
  let quote_token := match quote_currency with
    | .eth => WETH_ADDRESS
    | .usd => USDC_ADDRESS
  match get_uniswap_v3_price env token quote_token decimals with
  | .ok price =>
    .ok { tokenAddress := token, tokenSymbol := symbol, tokenDecimals := decimals
          price := price, quoteCurrency := quote_currency
          source := .uniswapV3, timestamp := env.now }
  | .error _ =>
    match get_uniswap_v2_price env token quote_token decimals with
    | .ok price =>
      .ok { tokenAddress := token, tokenSymbol := symbol, tokenDecimals := decimals
            price := price, quoteCurrency := quote_currency
            source := .uniswapV2, timestamp := env.now }
    | .error _ => .error .poolNotFound

/-- `PriceService::get_price`: self-referential shortcuts, then the oracle
for USD quotes (soft failure), then the AMM path. -/
def get_price (env : PriceEnv) (token : Nat) (quote_currency : QuoteCurrency) :
    Except AppError PriceInfo :=
  let metadata := get_token_metadata env token
  if token = WETH_ADDRESS ∧ quote_currency = .eth then
    .ok { tokenAddress := token, tokenSymbol := metadata.symbol
          tokenDecimals := metadata.decimals, price := 1
          quoteCurrency := .eth, source := .uniswapV3, timestamp := env.now }
  else if token = USDC_ADDRESS ∧ quote_currency = .usd then
    .ok { tokenAddress := token, tokenSymbol := metadata.symbol
          tokenDecimals := metadata.decimals, price := 1
          quoteCurrency := .usd, source := .chainlink, timestamp := env.now }
  else
    let fallback := get_uniswap_price env token quote_currency
      metadata.symbol metadata.decimals
    if quote_currency = .usd then
      match chainlink_feeds token with
      | some feed_address =>
        match get_chainlink_price env token feed_address
            metadata.symbol metadata.decimals with
        | .ok price_info => .ok price_info
        | .error _ => fallback
      | none => fallback
    else fallback

/-- ASCII uppercase, mirroring the registry's symbol-key normalisation.
(Rust `str::to_uppercase` is full Unicode; token symbols are ASCII.) -/
def strToUpper (s : String) : String := String.mk (s.data.map Char.toUpper)

/-- A cached token entry. -/
structure TokenEntry where
  address : Nat
  symbol : String
  name : String
  decimals : Nat
  chain_id : Nat
deriving DecidableEq

/-- `HashMap::insert`: replace the value under an existing key, otherwise
add a new binding.  (Association list standing in for the hash map; lookup
and size agree.) -/
def mapInsert {κ : Type} [DecidableEq κ] {β : Type} (k : κ) (v : β) :
    List (κ × β) → List (κ × β)
  | [] => [(k, v)]
  | (k0, v0) :: rest =>
    if k0 = k then (k, v) :: rest else (k0, v0) :: mapInsert k v rest

/-- `HashMap::get`. -/
def mapGet {κ : Type} [DecidableEq κ] {β : Type} (k : κ) :
    List (κ × β) → Option β
  | [] => none
  | (k0, v0) :: rest => if k0 = k then some v0 else mapGet k rest

/-- The symbol-index key `(chain_id, symbol.to_uppercase())`. -/
def symKey (e : TokenEntry) : Nat × String := (e.chain_id, strToUpper e.symbol)

/-- The address-index key `(chain_id, address)`. -/
def addrKey (e : TokenEntry) : Nat × Nat := (e.chain_id, e.address)

/-- `CacheState`: the two indexes plus the refresh stamp. -/
structure CacheState where
  by_symbol : List ((Nat × String) × TokenEntry)
  by_address : List ((Nat × Nat) × TokenEntry)
  last_updated : Option Nat

/-- `CacheState::new`. -/
def CacheState.new : CacheState :=
  { by_symbol := [], by_address := [], last_updated := none }

/-- `CacheState::insert`: insert one entry into both indexes. -/
def CacheState.insert (st : CacheState) (e : TokenEntry) : CacheState :=
  { st with
    by_symbol := mapInsert (symKey e) e st.by_symbol
    by_address := mapInsert (addrKey e) e st.by_address }

/-- Fold `CacheState::insert` over a list of entries. -/
def insertAll (st : CacheState) (es : List TokenEntry) : CacheState :=
  es.foldl CacheState.insert st

def wethEntry : TokenEntry :=
  { address := WETH_ADDRESS, symbol := "WETH", name := "Wrapped Ether"
    decimals := 18, chain_id := ETHEREUM_MAINNET_CHAIN_ID }

def usdcEntry : TokenEntry :=
  { address := USDC_ADDRESS, symbol := "USDC", name := "USD Coin"
    decimals := 6, chain_id := ETHEREUM_MAINNET_CHAIN_ID }

def wbtcEntry : TokenEntry :=
  { address := WBTC_ADDRESS, symbol := "WBTC", name := "Wrapped BTC"
    decimals := 8, chain_id := ETHEREUM_MAINNET_CHAIN_ID }

def uniEntry : TokenEntry :=
  { address := UNI_ADDRESS, symbol := "UNI", name := "Uniswap"
    decimals := 18, chain_id := ETHEREUM_MAINNET_CHAIN_ID }

def fallback_tokens : List TokenEntry := [wethEntry, usdcEntry, wbtcEntry, uniEntry]

/-- `TokenRegistry::populate_fallback_tokens` (the `try_write` succeeds at
construction time, where no other task holds the lock). -/
def populate_fallback_tokens (st : CacheState) : CacheState :=
  insertAll st fallback_tokens

/-- One entry of the fetched token list; `address` is the outcome of parsing
the address string (`none` = malformed, skipped and logged). -/
structure TokenListToken where
  chain_id : Nat
  address : Option Nat
  symbol : String
  name : String
  decimals : Nat

/-- Cache mutation performed by `TokenRegistry::refresh` over a fetched
token list: skip other chains and malformed addresses, insert the rest into
both indexes (the loop inlines exactly `CacheState::insert`), and count. -/
def refreshApply (chain : Nat) (tokens : List TokenListToken) (st : CacheState) :
    CacheState × Nat :=
  tokens.foldl
    (fun acc t =>
      if t.chain_id ≠ chain then acc
      else
        match t.address with
        | none => acc
        | some addr =>
          (acc.1.insert
            { address := addr, symbol := t.symbol, name := t.name
              decimals := t.decimals, chain_id := t.chain_id },
            acc.2 + 1))
    (st, 0)

/-- `TokenRegistry::refresh`: a failed fetch (network, HTTP status or parse)
leaves the cache untouched and surfaces the error; a successful one applies
the list and stamps `last_updated`. -/
def refresh (chain : Nat) (fetch : Except AppError (List TokenListToken))
    (st : CacheState) (now : Nat) : Except AppError Nat × CacheState :=
  match fetch with
  | .error e => (.error e, st)
  | .ok tokens =>
    let applied := refreshApply chain tokens st
    (.ok applied.2, { applied.1 with last_updated := some now })

/-- `CacheState::is_expired`. -/
def CacheState.is_expired (st : CacheState) (ttl now : Nat) : Bool :=
  match st.last_updated with
  | some last => ttl < now - last
  | none => true

/-- `TokenRegistry::ensure_fresh`: refresh when stale; the caller ignores
the returned error.  The capacity-1 semaphore and double-check only matter
under concurrency and are not modelled; `fetch` stands for the remote
response during this lookup. -/
def ensure_fresh (chain ttl now : Nat)
    (fetch : Except AppError (List TokenListToken)) (st : CacheState) : CacheState :=
  if st.is_expired ttl now then (refresh chain fetch st now).2 else st

/-- `TokenRegistry::resolve_symbol`: freshen, look up, and on a miss force
one refresh and retry; a failed forced refresh yields `none` rather than an
error. -/
def resolve_symbol (chain ttl now : Nat)
    (fetch : Except AppError (List TokenListToken)) (st : CacheState)
    (symbol : String) : Option TokenEntry × CacheState :=
  let st1 := ensure_fresh chain ttl now fetch st
  let key := (chain, strToUpper symbol)
  match mapGet key st1.by_symbol with
  | some entry => (some entry, st1)
  | none =>
    match refresh chain fetch st1 now with
    | (.error _, st2) => (none, st2)
    | (.ok _, st2) => (mapGet key st2.by_symbol, st2)

/-- Concrete refuting environment for the claimed `InsufficientLiquidity`
case: one pool exists (tier 100) and every quote is zero output. -/
def v3CexEnv : V3Env := { pool := fun fee => fee = 100, quote := fun _ => some 0 }

/-- The two-index invariant the specification asserts: equal sizes and
mutual reachability with identical field values. -/
def registryConsistent (st : CacheState) : Prop :=
  st.by_symbol.length = st.by_address.length ∧
  (∀ k e, mapGet k st.by_symbol = some e → mapGet (addrKey e) st.by_address = some e) ∧
  (∀ k e, mapGet k st.by_address = some e → mapGet (symKey e) st.by_symbol = some e)

/-- The entries a refresh actually inserts: chain-matching, address parsed. -/
def effectiveEntries (chain : Nat) (tokens : List TokenListToken) : List TokenEntry :=
  tokens.filterMap (fun t =>
    if t.chain_id ≠ chain then none
    else t.address.map (fun addr =>
      { address := addr, symbol := t.symbol, name := t.name
        decimals := t.decimals, chain_id := t.chain_id }))

/-- Two fetched tokens sharing an uppercase symbol but not an address. -/
def c3TokenA : TokenListToken :=
  { chain_id := 1, address := some 1, symbol := "ABC"
    name := "Token A", decimals := 18 }

/-- Second colliding token for the C3 counterexample. -/
def c3TokenB : TokenListToken :=
  { chain_id := 1, address := some 2, symbol := "abc"
    name := "Token B", decimals := 18 }

/-- Environment for the C6 witness: the ETH/USD feed answers with a round
answered one round before the latest round. -/
def c6Env : PriceEnv :=
  { metaSymbol := fun _ => some "WETH"
    metaName := fun _ => none
    metaDecimals := fun _ => some 18
    oracleRound := fun _ => some
      { roundId := 2, answer := 300000000000, startedAt := 0
        updatedAt := 0, answeredInRound := 1 }
    oracleDecimals := fun _ => some 8
    v3QuoteOut := fun _ _ _ _ => some 3000000000
    v2PairOf := fun _ _ => some 1
    v2Reserves := fun _ => some (1, 1)
    v2Token0 := fun _ => some 0
    now := 0 }

/-- Environment for the C8 witness: a live direct pair with reserves. -/
def c8Env : PriceEnv :=
  { metaSymbol := fun _ => none
    metaName := fun _ => none
    metaDecimals := fun _ => none
    oracleRound := fun _ => none
    oracleDecimals := fun _ => none
    v3QuoteOut := fun _ _ _ _ => none
    v2PairOf := fun _ _ => some 5
    v2Reserves := fun _ => some (2000000, 1000000000)
    v2Token0 := fun _ => some 7
    now := 0 }

theorem digitsFuel_eq_digits : ∀ (f n : Nat), n < 10 ^ f →
    digitsFuel f n = Nat.digits 10 n := by
  intro f
  induction f with
  | zero =>
    intro n hn
    interval_cases n
    simp [digitsFuel]
  | succ f ih =>
    intro n hn
    match n with
    | 0 => simp [digitsFuel]
    | n + 1 =>
      rw [digitsFuel, Nat.digits_def' (by norm_num) (Nat.succ_pos n),
        ih ((n + 1) / 10) (Nat.div_lt_of_lt_mul (by rw [← pow_succ']; exact hn))]

theorem digitCharOf_toNat {d : Nat} (hd : d < 10) : (digitCharOf d).toNat - 48 = d := by
  interval_cases d <;> decide

theorem digitCharOf_isDigit {d : Nat} (hd : d < 10) : (digitCharOf d).isDigit = true := by
  interval_cases d <;> decide

theorem digitCharOf_eq_zero_iff {d : Nat} (hd : d < 10) : digitCharOf d = '0' ↔ d = 0 := by
  interval_cases d <;> simp [digitCharOf]

theorem digitCharOf_not_ws {d : Nat} (hd : d < 10) :
    (digitCharOf d).isWhitespace = false := by
  interval_cases d <;> decide

theorem digitCharOf_ne_dash {d : Nat} (hd : d < 10) : digitCharOf d ≠ '-' := by
  interval_cases d <;> decide

theorem digitCharOf_ne_dot {d : Nat} (hd : d < 10) : digitCharOf d ≠ '.' := by
  interval_cases d <;> decide

theorem dropWhile_eq_self_of_head {α} (p : α → Bool) (l : List α)
    (h : ∀ a ∈ l, p a = false) : l.dropWhile p = l := by
  cases l with
  | nil => rfl
  | cons a l =>
    rw [List.dropWhile_cons, h a (List.mem_cons_self a l)]
    simp

theorem strTrim_eq_self {s : List Char} (h : ∀ c ∈ s, c.isWhitespace = false) :
    strTrim s = s := by
  unfold strTrim
  rw [dropWhile_eq_self_of_head _ _ h,
    dropWhile_eq_self_of_head _ _ (fun c hc => h c (List.mem_reverse.mp hc)),
    List.reverse_reverse]

theorem splitOnChar_ne_nil (sep : Char) (s : List Char) : splitOnChar sep s ≠ [] := by
  cases s with
  | nil => simp [splitOnChar]
  | cons c rest =>
    rw [splitOnChar]
    split
    · simp
    · split <;> simp

theorem splitOnChar_of_not_mem {sep : Char} : ∀ {s : List Char}, sep ∉ s →
    splitOnChar sep s = [s] := by
  intro s
  induction s with
  | nil => intro; rfl
  | cons c rest ih =>
    intro h
    rw [splitOnChar, if_neg (fun hc => h (by rw [← hc]; exact List.mem_cons_self c rest)),
      ih (fun hm => h (List.mem_cons_of_mem c hm))]

theorem splitOnChar_append {sep : Char} : ∀ {A : List Char} (B : List Char), sep ∉ A →
    splitOnChar sep (A ++ sep :: B) = A :: splitOnChar sep B := by
  intro A
  induction A with
  | nil => intro B _; simp [splitOnChar]
  | cons a A ih =>
    intro B h
    rw [List.cons_append, splitOnChar,
      if_neg (fun hc => h (by rw [← hc]; exact List.mem_cons_self a A)),
      ih B (fun hm => h (List.mem_cons_of_mem a hm))]

theorem foldl_mul_add : ∀ (l : List Nat) (a : Nat),
    l.foldl (fun a d => a * 10 + d) a = a * 10 ^ l.length + Nat.ofDigits 10 l.reverse := by
  intro l
  induction l with
  | nil => intro a; simp [Nat.ofDigits]
  | cons d l ih =>
    intro a
    rw [List.foldl_cons, ih, List.reverse_cons, Nat.ofDigits_append, List.length_cons,
      List.length_reverse]
    simp [Nat.ofDigits]
    ring

theorem valMSB_eq (l : List Nat) : valMSB l = Nat.ofDigits 10 l.reverse := by
  simpa using foldl_mul_add l 0

theorem valMSB_append (A B : List Nat) :
    valMSB (A ++ B) = valMSB A * 10 ^ B.length + valMSB B := by
  rw [valMSB, List.foldl_append, ← valMSB, foldl_mul_add, ← valMSB_eq]

theorem valMSB_replicate_zero (z : Nat) : valMSB (List.replicate z 0) = 0 := by
  induction z with
  | zero => rfl
  | succ z ih => rw [List.replicate_succ, valMSB, List.foldl_cons]; simpa [valMSB] using ih

theorem valMSB_replicate_zero_append (z : Nat) (l : List Nat) :
    valMSB (List.replicate z 0 ++ l) = valMSB l := by
  rw [valMSB_append, valMSB_replicate_zero]; ring

theorem valMSB_append_replicate_zero (l : List Nat) (t : Nat) :
    valMSB (l ++ List.replicate t 0) = valMSB l * 10 ^ t := by
  rw [valMSB_append, valMSB_replicate_zero, List.length_replicate]; ring

theorem valMSB_digits (x : Nat) : valMSB ((Nat.digits 10 x).reverse) = x := by
  rw [valMSB_eq, List.reverse_reverse, Nat.ofDigits_digits]

theorem valMSB_lt (l : List Nat) (h : ∀ d ∈ l, d < 10) : valMSB l < 10 ^ l.length := by
  rw [valMSB_eq, ← List.length_reverse l]
  exact Nat.ofDigits_lt_base_pow_length (by norm_num)
    (fun x hx => h x (List.mem_reverse.mp hx))

theorem map_toNat_map_digitCharOf (l : List Nat) (h : ∀ d ∈ l, d < 10) :
    (l.map digitCharOf).map (fun c => c.toNat - 48) = l := by
  induction l with
  | nil => rfl
  | cons d l ih =>
    rw [List.map_cons, List.map_cons, digitCharOf_toNat (h d (List.mem_cons_self d l)),
      ih (fun x hx => h x (List.mem_cons_of_mem d hx))]

theorem all_isDigit_map_digitCharOf (l : List Nat) (h : ∀ d ∈ l, d < 10) :
    (l.map digitCharOf).all Char.isDigit = true := by
  rw [List.all_eq_true]
  intro c hc
  obtain ⟨d, hd, rfl⟩ := List.mem_map.mp hc
  exact digitCharOf_isDigit (h d hd)

theorem dropWhile_zero_map_digitCharOf (l : List Nat) (h : ∀ d ∈ l, d < 10) :
    (l.map digitCharOf).dropWhile (fun c => c = '0') =
      (l.dropWhile (fun d => d = 0)).map digitCharOf := by
  induction l with
  | nil => rfl
  | cons d l ih =>
    have hd := h d (List.mem_cons_self d l)
    have htl := ih (fun x hx => h x (List.mem_cons_of_mem d hx))
    have hiff : digitCharOf d = '0' ↔ d = 0 := digitCharOf_eq_zero_iff hd
    rw [List.map_cons, List.dropWhile_cons, List.dropWhile_cons]
    by_cases h0 : d = 0
    · rw [if_pos (by subst h0; decide), if_pos (by simp [h0]), htl]
    · rw [if_neg (by simp [hiff, h0]), if_neg (by simp [h0]), List.map_cons]

theorem map_digitCharOf_replicate_zero (n : Nat) :
    (List.replicate n 0).map digitCharOf = List.replicate n '0' := by
  rw [List.map_replicate]; rfl

theorem parseU256_map_digitCharOf (l : List Nat) (h : ∀ d ∈ l, d < 10)
    (hne : l ≠ []) (hlt : valMSB l < TWO256) :
    parseU256 (l.map digitCharOf) = some (valMSB l) := by
  rw [parseU256, if_neg (by simpa using hne),
    if_pos (all_isDigit_map_digitCharOf l h)]
  simp only [map_toNat_map_digitCharOf l h]
  rw [if_pos hlt]

theorem digits_dropWhile_ne_nil {x : Nat} (hx : x ≠ 0) :
    (Nat.digits 10 x).dropWhile (fun d => d = 0) ≠ [] := by
  intro hnil
  have hall := List.dropWhile_eq_nil_iff.mp hnil
  have hne : Nat.digits 10 x ≠ [] := Nat.digits_ne_nil_iff_ne_zero.mpr hx
  have hlast := Nat.getLast_digit_ne_zero 10 hx
  exact hlast (by simpa using hall _ (List.getLast_mem hne))

theorem digits_decomp (l : List Nat) :
    l = List.replicate (l.length - (l.dropWhile (fun d => d = 0)).length) 0 ++
      l.dropWhile (fun d => d = 0) := by
  conv_lhs => rw [← List.takeWhile_append_dropWhile (p := fun d => d = 0) (l := l)]
  have hrep : l.takeWhile (fun d => d = 0) =
      List.replicate (l.takeWhile (fun d => d = 0)).length 0 := by
    rw [List.eq_replicate_iff]
    exact ⟨rfl, fun b hb => by simpa using List.mem_takeWhile_imp hb⟩
  have hlen : (l.takeWhile (fun d => d = 0)).length =
      l.length - (l.dropWhile (fun d => d = 0)).length := by
    have hsum := congrArg List.length
      (List.takeWhile_append_dropWhile (p := fun d => decide (d = 0)) (l := l))
    rw [List.length_append] at hsum
    omega
  rw [← hlen, ← hrep]

theorem trimEndMatches_zero_rev_map (l : List Nat) (h : ∀ k ∈ l, k < 10) :
    trimEndMatches '0' ((l.reverse).map digitCharOf) =
      ((l.dropWhile (fun k => k = 0)).reverse).map digitCharOf := by
  rw [trimEndMatches, List.map_reverse, List.reverse_reverse,
    dropWhile_zero_map_digitCharOf l h, List.map_reverse]

theorem mul_mod_mod (a b M : Nat) : a * (b % M) % M = a * b % M := by
  conv_rhs => rw [Nat.mul_mod]
  rw [Nat.mul_mod, Nat.mod_mod]

theorem mod_add_mod_eq (A c M : Nat) : (A % M + c) % M = (A + c) % M := by
  conv_rhs => rw [Nat.add_mod]
  rw [Nat.add_mod (A % M) c, Nat.mod_mod]

theorem parse_units_digits (l : List Nat) (d : Nat) (h : ∀ k ∈ l, k < 10)
    (hne : l ≠ []) (hlt : valMSB l < TWO256) :
    parse_units (l.map digitCharOf) d =
      some (valMSB l * (10 ^ d % TWO256) % TWO256) := by
  have hws : ∀ c ∈ l.map digitCharOf, c.isWhitespace = false := by
    intro c hc
    obtain ⟨k, hk, rfl⟩ := List.mem_map.mp hc
    exact digitCharOf_not_ws (h k hk)
  have hdot : '.' ∉ l.map digitCharOf := by
    intro hc
    obtain ⟨k, hk, he⟩ := List.mem_map.mp hc
    exact digitCharOf_ne_dot (h k hk) he
  have hsplit : splitOnChar '.' (l.map digitCharOf) = [l.map digitCharOf] :=
    splitOnChar_of_not_mem hdot
  have hparse : parseU256 (l.map digitCharOf) = some (valMSB l) :=
    parseU256_map_digitCharOf _ h hne hlt
  have hempty : (l.map digitCharOf).isEmpty = false := by
    simp [List.isEmpty_iff, hne]
  have hhead : ¬(l.map digitCharOf).head? = some '-' := by
    intro hh
    have hm : '-' ∈ l.map digitCharOf := List.mem_of_mem_head? (by rw [hh]; rfl)
    obtain ⟨k, hk, he⟩ := List.mem_map.mp hm
    exact digitCharOf_ne_dash (h k hk) he
  simp only [parse_units, strTrim_eq_self hws, hempty, Bool.false_eq_true, if_false,
    if_neg hhead, hsplit, hparse]

theorem parse_units_int_frac (A B : List Nat) (d : Nat)
    (hA : ∀ k ∈ A, k < 10) (hB : ∀ k ∈ B, k < 10)
    (hAne : A ≠ []) (hBne : B ≠ []) (hBlen : B.length ≤ d)
    (hvA : valMSB A < TWO256)
    (hvF : valMSB (B ++ List.replicate (d - B.length) 0) < TWO256) :
    parse_units (A.map digitCharOf ++ '.' :: B.map digitCharOf) d =
      some ((valMSB A * (10 ^ d % TWO256) % TWO256 +
        valMSB (B ++ List.replicate (d - B.length) 0)) % TWO256) := by
  have hwsA : ∀ c ∈ A.map digitCharOf, c.isWhitespace = false := by
    intro c hc
    obtain ⟨k, hk, rfl⟩ := List.mem_map.mp hc
    exact digitCharOf_not_ws (hA k hk)
  have hwsB : ∀ c ∈ B.map digitCharOf, c.isWhitespace = false := by
    intro c hc
    obtain ⟨k, hk, rfl⟩ := List.mem_map.mp hc
    exact digitCharOf_not_ws (hB k hk)
  have hws : ∀ c ∈ A.map digitCharOf ++ '.' :: B.map digitCharOf,
      c.isWhitespace = false := by
    intro c hc
    rcases List.mem_append.mp hc with hc | hc
    · exact hwsA c hc
    · rcases List.mem_cons.mp hc with rfl | hc
      · decide
      · exact hwsB c hc
  have hdotA : '.' ∉ A.map digitCharOf := by
    intro hc
    obtain ⟨k, hk, he⟩ := List.mem_map.mp hc
    exact digitCharOf_ne_dot (hA k hk) he
  have hdotB : '.' ∉ B.map digitCharOf := by
    intro hc
    obtain ⟨k, hk, he⟩ := List.mem_map.mp hc
    exact digitCharOf_ne_dot (hB k hk) he
  have hsplit : splitOnChar '.' (A.map digitCharOf ++ '.' :: B.map digitCharOf) =
      [A.map digitCharOf, B.map digitCharOf] := by
    rw [splitOnChar_append _ hdotA, splitOnChar_of_not_mem hdotB]
  have hempty : (A.map digitCharOf ++ '.' :: B.map digitCharOf).isEmpty = false := by
    rcases A with _ | ⟨a, A0⟩
    · exact absurd rfl hAne
    · rfl
  have hhead : ¬(A.map digitCharOf ++ '.' :: B.map digitCharOf).head? = some '-' := by
    rcases A with _ | ⟨a, A0⟩
    · exact absurd rfl hAne
    · intro hh
      simp only [List.map_cons, List.cons_append, List.head?_cons,
        Option.some.injEq] at hh
      exact digitCharOf_ne_dash (hA a (List.mem_cons_self a A0)) hh
  have hAempty : (A.map digitCharOf).isEmpty = false := by
    simp [List.isEmpty_iff, hAne]
  have hparseA : parseU256 (A.map digitCharOf) = some (valMSB A) :=
    parseU256_map_digitCharOf _ hA hAne hvA
  have hfrac : (B.map digitCharOf) ++ List.replicate (d - (B.map digitCharOf).length) '0' =
      (B ++ List.replicate (d - B.length) 0).map digitCharOf := by
    rw [List.map_append, map_digitCharOf_replicate_zero, List.length_map]
  have hfracNe : B ++ List.replicate (d - B.length) 0 ≠ [] := by
    intro hcontra
    exact hBne (List.append_eq_nil.mp hcontra).1
  have hfracAll : ∀ k ∈ B ++ List.replicate (d - B.length) 0, k < 10 := by
    intro k hk
    rcases List.mem_append.mp hk with hk | hk
    · exact hB k hk
    · rw [List.eq_of_mem_replicate hk]; norm_num
  have hparseF : parseU256 ((B ++ List.replicate (d - B.length) 0).map digitCharOf) =
      some (valMSB (B ++ List.replicate (d - B.length) 0)) :=
    parseU256_map_digitCharOf _ hfracAll hfracNe hvF
  have hfracEmpty :
      ((B ++ List.replicate (d - B.length) 0).map digitCharOf).isEmpty = false := by
    rcases B with _ | ⟨b, B0⟩
    · exact absurd rfl hBne
    · rfl
  have hBlen2 : ¬(d < (B.map digitCharOf).length) := by
    rw [List.length_map]; omega
  simp only [parse_units, strTrim_eq_self hws, hempty, Bool.false_eq_true, if_false,
    if_neg hhead, hsplit, if_neg hBlen2, hfrac, hAempty, hparseA, hfracEmpty, hparseF]

theorem parse_format_units_roundtrip (x d : Nat) (hx : x < TWO256) :
    parse_units (format_units x d) d = some x := by
  by_cases hx0 : x = 0
  · subst hx0
    have h0 : format_units 0 d = [0].map digitCharOf := by
      rw [format_units, if_pos rfl]; decide
    rw [h0, parse_units_digits [0] d (by decide) (by decide) (by decide)]
    simp [valMSB]
  · have hds : ∀ k ∈ Nat.digits 10 x, k < 10 :=
      fun k hk => Nat.digits_lt_base (by norm_num) hk
    have hdsrev : ∀ k ∈ (Nat.digits 10 x).reverse, k < 10 :=
      fun k hk => hds k (List.mem_reverse.mp hk)
    have hne : Nat.digits 10 x ≠ [] := Nat.digits_ne_nil_iff_ne_zero.mpr hx0
    have hlen1 : 0 < (Nat.digits 10 x).length := List.length_pos.mpr hne
    have hval : valMSB (Nat.digits 10 x).reverse = x := valMSB_digits x
    have hstr : u256ToString x = ((Nat.digits 10 x).reverse).map digitCharOf := by
      rw [u256ToString, if_neg hx0,
        digitsFuel_eq_digits 100 x (lt_of_lt_of_le hx (by rw [TWO256]; norm_num))]
    simp only [format_units, if_neg hx0, hstr, List.length_map, List.length_reverse]
    by_cases hd0 : d = 0
    · subst hd0
      rw [if_pos rfl, parse_units_digits _ 0 hdsrev (by simpa using hne)
        (by rw [hval]; exact hx)]
      rw [hval, pow_zero, mul_mod_mod, mul_one, Nat.mod_eq_of_lt hx]
    · rw [if_neg hd0]
      have hqlen : ∀ l : List Nat,
          (l.dropWhile (fun k => k = 0)).length ≤ l.length := by
        intro l
        have hsum := congrArg List.length
          (List.takeWhile_append_dropWhile (p := fun k => decide (k = 0)) (l := l))
        rw [List.length_append] at hsum
        omega
      by_cases hLd : (Nat.digits 10 x).length ≤ d
      · -- value shorter than the decimal count: "0.<zeros><digits>"
        rw [if_pos hLd, trimEndMatches_zero_rev_map _ hds]
        have hqne : (Nat.digits 10 x).dropWhile (fun k => k = 0) ≠ [] :=
          digits_dropWhile_ne_nil hx0
        rw [if_neg (by simp [List.isEmpty_iff, hqne])]
        have hshape : ('0' :: '.' ::
            (List.replicate (d - (Nat.digits 10 x).length) '0' ++
              (((Nat.digits 10 x).dropWhile (fun k => k = 0)).reverse).map digitCharOf))
            = ([0].map digitCharOf) ++ '.' ::
              ((List.replicate (d - (Nat.digits 10 x).length) 0 ++
                ((Nat.digits 10 x).dropWhile (fun k => k = 0)).reverse).map digitCharOf) := by
          rw [List.map_append, map_digitCharOf_replicate_zero,
            show [0].map digitCharOf = ['0'] from by decide, List.singleton_append]
        rw [hshape]
        have hqsub : ∀ k ∈ (Nat.digits 10 x).dropWhile (fun k => k = 0),
            k ∈ Nat.digits 10 x := by
          intro k hk
          rw [← List.takeWhile_append_dropWhile
            (p := fun k => decide (k = 0)) (l := Nat.digits 10 x)]
          exact List.mem_append_right _ hk
        have hBall : ∀ k ∈ List.replicate (d - (Nat.digits 10 x).length) 0 ++
            ((Nat.digits 10 x).dropWhile (fun k => k = 0)).reverse, k < 10 := by
          intro k hk
          rcases List.mem_append.mp hk with hk | hk
          · rw [List.eq_of_mem_replicate hk]; norm_num
          · exact hds k (hqsub k (List.mem_reverse.mp hk))
        have hBne : List.replicate (d - (Nat.digits 10 x).length) 0 ++
            ((Nat.digits 10 x).dropWhile (fun k => k = 0)).reverse ≠ [] := by
          intro hc
          exact hqne (by simpa using (List.append_eq_nil.mp hc).2)
        have hBlen : (List.replicate (d - (Nat.digits 10 x).length) 0 ++
            ((Nat.digits 10 x).dropWhile (fun k => k = 0)).reverse).length ≤ d := by
          rw [List.length_append, List.length_replicate, List.length_reverse]
          have := hqlen (Nat.digits 10 x)
          omega
        have hfracEq : (List.replicate (d - (Nat.digits 10 x).length) 0 ++
              ((Nat.digits 10 x).dropWhile (fun k => k = 0)).reverse) ++
            List.replicate (d - (List.replicate (d - (Nat.digits 10 x).length) 0 ++
              ((Nat.digits 10 x).dropWhile (fun k => k = 0)).reverse).length) 0 =
            List.replicate (d - (Nat.digits 10 x).length) 0 ++
              (Nat.digits 10 x).reverse := by
          rw [List.length_append, List.length_replicate, List.length_reverse,
            List.append_assoc]
          have harith : d - ((d - (Nat.digits 10 x).length) +
              ((Nat.digits 10 x).dropWhile (fun k => k = 0)).length) =
              (Nat.digits 10 x).length -
                ((Nat.digits 10 x).dropWhile (fun k => k = 0)).length := by
            have := hqlen (Nat.digits 10 x)
            omega
          rw [harith]
          congr 1
          conv_rhs => rw [digits_decomp (Nat.digits 10 x)]
          rw [List.reverse_append, List.reverse_replicate]
        have hvF : valMSB ((List.replicate (d - (Nat.digits 10 x).length) 0 ++
              ((Nat.digits 10 x).dropWhile (fun k => k = 0)).reverse) ++
            List.replicate (d - (List.replicate (d - (Nat.digits 10 x).length) 0 ++
              ((Nat.digits 10 x).dropWhile (fun k => k = 0)).reverse).length) 0) = x := by
          rw [hfracEq, valMSB_replicate_zero_append, hval]
        rw [parse_units_int_frac [0] _ d (by decide) hBall (by decide) hBne hBlen
          (by decide) (by rw [hvF]; exact hx)]
        rw [hvF]
        simp only [show valMSB [0] = 0 from rfl, Nat.zero_mul, Nat.zero_mod, Nat.zero_add]
        rw [Nat.mod_eq_of_lt hx]
      · -- value longer than the decimal count: "<int>.<frac>" or "<int>"
        rw [if_neg hLd]
        push_neg at hLd
        rw [← List.map_take, ← List.map_drop, ← List.reverse_take,
          trimEndMatches_zero_rev_map ((Nat.digits 10 x).take d)
            (fun k hk => hds k (List.take_subset _ _ hk))]
        have hAall : ∀ k ∈ ((Nat.digits 10 x).reverse).take
            ((Nat.digits 10 x).length - d), k < 10 :=
          fun k hk => hdsrev k (List.take_subset _ _ hk)
        have hAne : ((Nat.digits 10 x).reverse).take ((Nat.digits 10 x).length - d) ≠ [] := by
          rw [← List.length_pos, List.length_take, List.length_reverse]
          omega
        have hdecLen : (((Nat.digits 10 x).take d).reverse).length = d := by
          rw [List.length_reverse, List.length_take]
          omega
        have hsplitx : valMSB (((Nat.digits 10 x).reverse).take
              ((Nat.digits 10 x).length - d)) * 10 ^ d +
            valMSB (((Nat.digits 10 x).take d).reverse) = x := by
          have happ : ((Nat.digits 10 x).reverse).take ((Nat.digits 10 x).length - d) ++
              ((Nat.digits 10 x).take d).reverse = (Nat.digits 10 x).reverse := by
            rw [List.reverse_take, ← List.length_reverse (Nat.digits 10 x)]
            exact List.take_append_drop _ _
          have := valMSB_append
            (((Nat.digits 10 x).reverse).take ((Nat.digits 10 x).length - d))
            (((Nat.digits 10 x).take d).reverse)
          rw [happ, hval, hdecLen] at this
          omega
        have hvA_lt : valMSB (((Nat.digits 10 x).reverse).take
            ((Nat.digits 10 x).length - d)) < TWO256 := by
          have hp : 0 < 10 ^ d := Nat.pos_pow_of_pos d (by norm_num)
          have hle : valMSB (((Nat.digits 10 x).reverse).take
              ((Nat.digits 10 x).length - d)) ≤
              valMSB (((Nat.digits 10 x).reverse).take
                ((Nat.digits 10 x).length - d)) * 10 ^ d :=
            Nat.le_mul_of_pos_right _ hp
          omega
        by_cases hq2 : ((Nat.digits 10 x).take d).dropWhile (fun k => k = 0) = []
        · -- fractional digits are all zero: bare integer output
          rw [if_pos (by simp [hq2])]
          rw [parse_units_digits _ d hAall hAne hvA_lt]
          have hdec0 : valMSB (((Nat.digits 10 x).take d).reverse) = 0 := by
            have hall := List.dropWhile_eq_nil_iff.mp hq2
            have hrep : ((Nat.digits 10 x).take d).reverse = List.replicate d 0 := by
              rw [List.eq_replicate_iff]
              refine ⟨hdecLen, fun b hb => ?_⟩
              simpa using hall b (List.mem_reverse.mp hb)
            rw [hrep]
            exact valMSB_replicate_zero d
          rw [mul_mod_mod]
          have hxeq : valMSB (((Nat.digits 10 x).reverse).take
              ((Nat.digits 10 x).length - d)) * 10 ^ d = x := by omega
          rw [hxeq, Nat.mod_eq_of_lt hx]
        · -- fractional digits remain after trimming
          rw [if_neg (by simp [List.isEmpty_iff, hq2])]
          have hq2sub : ∀ k ∈ ((Nat.digits 10 x).take d).dropWhile (fun k => k = 0),
              k ∈ (Nat.digits 10 x).take d := by
            intro k hk
            rw [← List.takeWhile_append_dropWhile
              (p := fun k => decide (k = 0)) (l := (Nat.digits 10 x).take d)]
            exact List.mem_append_right _ hk
          have hB2all : ∀ k ∈ (((Nat.digits 10 x).take d).dropWhile
              (fun k => k = 0)).reverse, k < 10 :=
            fun k hk => hds k (List.take_subset _ _ (hq2sub k (List.mem_reverse.mp hk)))
          have hB2ne : (((Nat.digits 10 x).take d).dropWhile
              (fun k => k = 0)).reverse ≠ [] := by
            simpa using hq2
          have hB2len : ((((Nat.digits 10 x).take d).dropWhile
              (fun k => k = 0)).reverse).length ≤ d := by
            rw [List.length_reverse]
            have := hqlen ((Nat.digits 10 x).take d)
            rw [List.length_take] at this
            omega
          have hfracEq2 : (((Nat.digits 10 x).take d).dropWhile
                (fun k => k = 0)).reverse ++
              List.replicate (d - ((((Nat.digits 10 x).take d).dropWhile
                (fun k => k = 0)).reverse).length) 0 =
              ((Nat.digits 10 x).take d).reverse := by
            rw [List.length_reverse]
            have harith : d - (((Nat.digits 10 x).take d).dropWhile
                (fun k => k = 0)).length =
                ((Nat.digits 10 x).take d).length -
                  (((Nat.digits 10 x).take d).dropWhile (fun k => k = 0)).length := by
              rw [List.length_take]
              omega
            rw [harith]
            conv_rhs => rw [digits_decomp ((Nat.digits 10 x).take d)]
            rw [List.reverse_append, List.reverse_replicate]
          have hvF2 : valMSB ((((Nat.digits 10 x).take d).dropWhile
                (fun k => k = 0)).reverse ++
              List.replicate (d - ((((Nat.digits 10 x).take d).dropWhile
                (fun k => k = 0)).reverse).length) 0) <
              TWO256 := by
            rw [hfracEq2]
            omega
          rw [parse_units_int_frac _ _ d hAall hB2all hAne hB2ne hB2len hvA_lt hvF2]
          rw [hfracEq2, mul_mod_mod, mod_add_mod_eq, hsplitx, Nat.mod_eq_of_lt hx]

theorem head_dropWhile_false {α} (p : α → Bool) :
    ∀ (l : List α) (a : α), (l.dropWhile p).head? = some a → p a = false := by
  intro l
  induction l with
  | nil => intro a h; cases h
  | cons b l ih =>
    intro a h
    rw [List.dropWhile_cons] at h
    by_cases hb : p b
    · rw [if_pos hb] at h
      exact ih a h
    · rw [if_neg hb] at h
      rw [List.head?_cons, Option.some.injEq] at h
      subst h
      simpa using hb

theorem getLast_dropWhile_false {α} (p : α → Bool) (l : List α) (a : α)
    (h : (l.dropWhile p).getLast? = some a) : l.getLast? = some a := by
  have hne : l.dropWhile p ≠ [] := by
    intro hc
    rw [hc] at h
    cases h
  conv_lhs => rw [← List.takeWhile_append_dropWhile (p := p) (l := l)]
  rw [List.getLast?_append_of_ne_nil _ hne]
  exact h

/-- `strTrim` output has no whitespace at either end. -/
theorem strTrim_ends (s : List Char) :
    (∀ a, (strTrim s).head? = some a → a.isWhitespace = false) ∧
    (∀ a, (strTrim s).getLast? = some a → a.isWhitespace = false) := by
  constructor
  · intro a ha
    rw [strTrim, List.head?_reverse] at ha
    have h2 := getLast_dropWhile_false Char.isWhitespace _ _ ha
    rw [List.getLast?_reverse] at h2
    exact head_dropWhile_false Char.isWhitespace _ _ h2
  · intro a ha
    rw [strTrim, List.getLast?_reverse] at ha
    exact head_dropWhile_false Char.isWhitespace _ _ ha

theorem strTrim_of_ends (l : List Char)
    (h1 : ∀ a, l.head? = some a → a.isWhitespace = false)
    (h2 : ∀ a, l.getLast? = some a → a.isWhitespace = false) :
    strTrim l = l := by
  have hd : l.dropWhile Char.isWhitespace = l := by
    cases l with
    | nil => rfl
    | cons a t =>
      rw [List.dropWhile_cons, h1 a (by rw [List.head?_cons])]
      simp
  rw [strTrim, hd]
  have hr : l.reverse.dropWhile Char.isWhitespace = l.reverse := by
    cases hrev : l.reverse with
    | nil => rfl
    | cons a t =>
      rw [List.dropWhile_cons]
      have ha : l.getLast? = some a := by
        rw [← List.head?_reverse, hrev, List.head?_cons]
      rw [h2 a ha]
      simp
  rw [hr, List.reverse_reverse]

theorem strTrim_idem (s : List Char) : strTrim (strTrim s) = strTrim s :=
  strTrim_of_ends _ (strTrim_ends s).1 (strTrim_ends s).2

theorem parse_units_strTrim (s : List Char) (d : Nat) :
    parse_units s d = parse_units (strTrim s) d := by
  rw [parse_units, parse_units, strTrim_idem]

theorem v3ScanFees_spec (env : V3Env) : ∀ (fees : List Nat) (bF : Option Nat) (bO : Nat),
    (bF = none → bO = 0) →
    (∀ f, bF = some f → env.pool f = true ∧ env.quote f = some bO ∧ 0 < bO) →
    ((v3ScanFees env fees bF bO).1 = none → (v3ScanFees env fees bF bO).2 = 0 ∧ bF = none) ∧
    (∀ f, (v3ScanFees env fees bF bO).1 = some f →
      (env.pool f = true ∧ env.quote f = some (v3ScanFees env fees bF bO).2 ∧
        0 < (v3ScanFees env fees bF bO).2) ∧ (bF = some f ∨ f ∈ fees)) ∧
    bO ≤ (v3ScanFees env fees bF bO).2 ∧
    (∀ f ∈ fees, env.pool f = true → ∀ o, env.quote f = some o →
      o ≤ (v3ScanFees env fees bF bO).2) := by
  intro fees
  induction fees with
  | nil =>
    intro bF bO h1 h2
    refine ⟨fun hn => ⟨h1 hn, hn⟩, fun f hf => ⟨h2 f hf, Or.inl hf⟩, le_refl _, ?_⟩
    intro f hf
    cases hf
  | cons fee rest ih =>
    intro bF bO h1 h2
    show _ ∧ _
    rw [v3ScanFees]
    by_cases hp : env.pool fee
    · rw [if_pos hp]
      cases hq : env.quote fee with
      | none =>
        obtain ⟨ih1, ih2, ih3, ih4⟩ := ih bF bO h1 h2
        refine ⟨ih1, ?_, ih3, ?_⟩
        · intro f hf
          obtain ⟨hprops, hor⟩ := ih2 f hf
          exact ⟨hprops, hor.imp id (List.mem_cons_of_mem fee)⟩
        · intro f hf hpf o ho
          rcases List.mem_cons.mp hf with rfl | hf
          · rw [hq] at ho
            cases ho
          · exact ih4 f hf hpf o ho
      | some out =>
        dsimp only
        by_cases hlt : bO < out
        · rw [if_pos hlt]
          have h1n : some fee = none → out = 0 := by intro h; cases h
          have h2n : ∀ f, some fee = some f →
              env.pool f = true ∧ env.quote f = some out ∧ 0 < out := by
            intro f hf
            rw [Option.some.injEq] at hf
            subst hf
            exact ⟨hp, hq, by omega⟩
          obtain ⟨ih1, ih2, ih3, ih4⟩ := ih (some fee) out h1n h2n
          refine ⟨?_, ?_, ?_, ?_⟩
          · intro hn
            obtain ⟨_, hcontra⟩ := ih1 hn
            cases hcontra
          · intro f hf
            obtain ⟨hprops, hor⟩ := ih2 f hf
            refine ⟨hprops, Or.inr ?_⟩
            rcases hor with hor | hor
            · rw [Option.some.injEq] at hor
              rw [← hor]
              exact List.mem_cons_self fee rest
            · exact List.mem_cons_of_mem fee hor
          · omega
          · intro f hf hpf o ho
            rcases List.mem_cons.mp hf with rfl | hf
            · rw [hq] at ho
              rw [Option.some.injEq] at ho
              omega
            · exact ih4 f hf hpf o ho
        · rw [if_neg hlt]
          obtain ⟨ih1, ih2, ih3, ih4⟩ := ih bF bO h1 h2
          refine ⟨ih1, ?_, ih3, ?_⟩
          · intro f hf
            obtain ⟨hprops, hor⟩ := ih2 f hf
            exact ⟨hprops, hor.imp id (List.mem_cons_of_mem fee)⟩
          · intro f hf hpf o ho
            rcases List.mem_cons.mp hf with rfl | hf
            · rw [hq] at ho
              rw [Option.some.injEq] at ho
              omega
            · exact ih4 f hf hpf o ho
    · rw [if_neg hp]
      obtain ⟨ih1, ih2, ih3, ih4⟩ := ih bF bO h1 h2
      refine ⟨ih1, ?_, ih3, ?_⟩
      · intro f hf
        obtain ⟨hprops, hor⟩ := ih2 f hf
        exact ⟨hprops, hor.imp id (List.mem_cons_of_mem fee)⟩
      · intro f hf hpf o ho
        rcases List.mem_cons.mp hf with rfl | hf
        · rw [hpf] at hp
          exact absurd rfl hp
        · exact ih4 f hf hpf o ho

theorem v3_selection_amended : ∀ env : V3Env,
    ((∀ f ∈ ALL_FEES, env.pool f = false) → try_v3_swap env = .error .poolNotFound) ∧
    ((∀ f ∈ ALL_FEES, env.pool f = true → env.quote f = none ∨ env.quote f = some 0) →
      try_v3_swap env = .error .poolNotFound) ∧
    try_v3_swap env ≠ .error .insufficientLiquidity ∧
    (∀ fee out, try_v3_swap env = .ok (fee, out) →
      fee ∈ ALL_FEES ∧ env.pool fee = true ∧ env.quote fee = some out ∧ 0 < out ∧
      ∀ f ∈ ALL_FEES, env.pool f = true → ∀ o, env.quote f = some o → o ≤ out) := by
  intro env
  obtain ⟨s1, s2, s3, s4⟩ :=
    v3ScanFees_spec env ALL_FEES none 0 (fun _ => rfl) (fun f hf => nomatch hf)
  rcases hscan : v3ScanFees env ALL_FEES none 0 with ⟨rf, ro⟩
  rw [hscan] at s1 s2 s3 s4
  dsimp only at s1 s2 s3 s4
  cases rf with
  | none =>
    have htry : try_v3_swap env = .error .poolNotFound := by
      rw [try_v3_swap, hscan]
    refine ⟨fun _ => htry, fun _ => htry, by rw [htry]; simp, ?_⟩
    intro fee out h
    rw [htry] at h
    cases h
  | some f0 =>
    obtain ⟨⟨hp0, hq0, hro⟩, hor⟩ := s2 f0 rfl
    have hf0mem : f0 ∈ ALL_FEES := by
      rcases hor with hor | hor
      · cases hor
      · exact hor
    have htry : try_v3_swap env = .ok (f0, ro) := by
      rw [try_v3_swap, hscan]
      dsimp only
      rw [if_neg (by omega)]
    refine ⟨?_, ?_, by rw [htry]; simp, ?_⟩
    · intro hall
      rw [hall f0 hf0mem] at hp0
      cases hp0
    · intro hall
      rcases hall f0 hf0mem hp0 with h | h
      · rw [h] at hq0
        cases hq0
      · rw [h] at hq0
        rw [Option.some.injEq] at hq0
        omega
    · intro fee out h
      rw [htry] at h
      rw [Except.ok.injEq, Prod.mk.injEq] at h
      obtain ⟨hfe, hou⟩ := h
      subst hfe
      subst hou
      exact ⟨hf0mem, hp0, hq0, hro, s4⟩

theorem reference_amount_spec :
    (∀ a : Nat, calculate_reference_amount a = min (max (a / 1000) 1000) a ∧
      calculate_reference_amount a ≤ a) ∧
    calculate_reference_amount 500 = 500 := by
  constructor
  · intro a
    have h1 : a / 1000 ≤ a / 10 := Nat.div_le_div_left (by norm_num) (by norm_num)
    have h2 : a / 1000 ≤ a := Nat.div_le_self a 1000
    have h3 : a / 10 ≤ a := Nat.div_le_self a 10
    simp only [calculate_reference_amount]
    split_ifs with hc1 hc2 <;> omega
  · decide

theorem weth_eth_price_spec : ∀ env : PriceEnv,
    get_price env WETH_ADDRESS .eth =
      .ok { tokenAddress := WETH_ADDRESS
            tokenSymbol := (env.metaSymbol WETH_ADDRESS).getD "UNKNOWN"
            tokenDecimals := (env.metaDecimals WETH_ADDRESS).getD 18
            price := 1
            quoteCurrency := .eth
            source := .uniswapV3
            timestamp := env.now } := by
  intro env
  simp [get_price, get_token_metadata]

theorem get_uniswap_price_source (env : PriceEnv) (token : Nat) (qc : QuoteCurrency)
    (symbol : String) (decimals : Nat) (pi : PriceInfo)
    (h : get_uniswap_price env token qc symbol decimals = .ok pi) :
    pi.source = .uniswapV3 ∨ pi.source = .uniswapV2 := by
  simp only [get_uniswap_price] at h
  set qt := (match qc with
    | QuoteCurrency.eth => WETH_ADDRESS
    | QuoteCurrency.usd => USDC_ADDRESS) with hqt
  rcases h3 : get_uniswap_v3_price env token qt decimals with e3 | p3 <;>
    rw [h3] at h <;> dsimp only at h
  · rcases h2 : get_uniswap_v2_price env token qt decimals with e2 | p2 <;>
      rw [h2] at h <;> dsimp only at h
    · cases h
    · rw [Except.ok.injEq] at h
      rw [← h]
      right
      rfl
  · rw [Except.ok.injEq] at h
    rw [← h]
    left
    rfl

theorem oracle_stale_soft_failure (env : PriceEnv) (token feed : Nat)
    (rd : OracleRoundData) (odec : Nat)
    (htok : token ≠ USDC_ADDRESS)
    (hfeed : chainlink_feeds token = some feed)
    (hround : env.oracleRound feed = some rd)
    (hodec : env.oracleDecimals feed = some odec)
    (hstale : rd.answeredInRound < rd.roundId) :
    (∀ symbol tdec, get_chainlink_price env token feed symbol tdec =
      .error .priceOracle) ∧
    get_price env token .usd = get_uniswap_price env token .usd
      ((env.metaSymbol token).getD "UNKNOWN") ((env.metaDecimals token).getD 18) ∧
    (∀ pi, get_price env token .usd = .ok pi → pi.source ≠ .chainlink) := by
  have hcl : ∀ symbol tdec, get_chainlink_price env token feed symbol tdec =
      .error .priceOracle := by
    intro symbol tdec
    rw [get_chainlink_price, hround, hodec]
    dsimp only
    rw [if_pos hstale]
  have hgp : get_price env token .usd = get_uniswap_price env token .usd
      ((env.metaSymbol token).getD "UNKNOWN") ((env.metaDecimals token).getD 18) := by
    simp [get_price, get_token_metadata, hfeed, hcl, htok]
  refine ⟨hcl, hgp, ?_⟩
  intro pi h
  rw [hgp] at h
  rcases get_uniswap_price_source env token .usd _ _ pi h with hs | hs <;>
    rw [hs] <;> simp

theorem v2_price_spec (env : PriceEnv) (token_in token_out din pair r0 r1 t0 : Nat)
    (hpair : env.v2PairOf token_in token_out = some pair)
    (hres : env.v2Reserves pair = some (r0, r1))
    (ht0 : env.v2Token0 pair = some t0)
    (hr0 : r0 < 2 ^ 112) (hr1 : r1 < 2 ^ 112) :
    (pair = 0 → get_uniswap_v2_price env token_in token_out din =
      .error .poolNotFound) ∧
    (pair ≠ 0 → r0 = 0 → r1 = 0 →
      get_uniswap_v2_price env token_in token_out din =
        .error .insufficientLiquidity) ∧
    (pair ≠ 0 → (if t0 = token_in then r0 else r1) ≠ 0 →
      get_uniswap_v2_price env token_in token_out din =
        .ok (((if t0 = token_in then r1 else r0) : ℚ) * 10 ^ din /
          ((if t0 = token_in then r0 else r1) : ℚ) /
          10 ^ (if token_out = USDC_ADDRESS then 6 else 18))) := by
  have hr0u : r0 < 2 ^ 128 := lt_of_lt_of_le hr0 (by norm_num)
  have hr1u : r1 < 2 ^ 128 := lt_of_lt_of_le hr1 (by norm_num)
  refine ⟨?_, ?_, ?_⟩
  · intro h0
    subst h0
    rw [get_uniswap_v2_price, hpair]
    dsimp only
    rw [if_pos rfl]
  · intro hp h0 h1
    subst h0
    subst h1
    rw [get_uniswap_v2_price, hpair]
    dsimp only
    rw [if_neg hp, hres, ht0]
    dsimp only
    by_cases hq : t0 = token_in <;>
      simp [hq]
  · intro hp hrin
    rw [get_uniswap_v2_price, hpair]
    dsimp only
    rw [if_neg hp, hres, ht0]
    dsimp only
    by_cases hq : t0 = token_in
    · rw [if_pos hq] at hrin ⊢
      simp only [if_pos hq]
      rw [if_neg (not_le.mpr hr0u), if_neg (not_le.mpr hr1u), if_neg hrin]
    · rw [if_neg hq] at hrin ⊢
      simp only [if_neg hq]
      rw [if_neg (not_le.mpr hr1u), if_neg (not_le.mpr hr0u), if_neg hrin]

theorem mapInsert_fresh {κ : Type} [DecidableEq κ] {β : Type} (k : κ) (v : β) :
    ∀ l : List (κ × β), k ∉ l.map Prod.fst → mapInsert k v l = l ++ [(k, v)] := by
  intro l
  induction l with
  | nil => intro; rfl
  | cons p rest ih =>
    intro h
    rcases p with ⟨k0, v0⟩
    rw [List.map_cons, List.mem_cons] at h
    push_neg at h
    rw [mapInsert, if_neg (fun hc => h.1 hc.symm), ih h.2, List.cons_append]

theorem mapGet_some_mem {κ : Type} [DecidableEq κ] {β : Type} (k : κ) (v : β) :
    ∀ l : List (κ × β), mapGet k l = some v → (k, v) ∈ l := by
  intro l
  induction l with
  | nil => intro h; cases h
  | cons p rest ih =>
    intro h
    rcases p with ⟨k0, v0⟩
    rw [mapGet] at h
    by_cases hk : k0 = k
    · rw [if_pos hk] at h
      rw [Option.some.injEq] at h
      rw [← h, hk]
      exact List.mem_cons_self _ _
    · rw [if_neg hk] at h
      exact List.mem_cons_of_mem _ (ih h)

theorem mapGet_of_mem_nodup {κ : Type} [DecidableEq κ] {β : Type} (k : κ) (v : β) :
    ∀ l : List (κ × β), (l.map Prod.fst).Nodup → (k, v) ∈ l → mapGet k l = some v := by
  intro l
  induction l with
  | nil => intro _ h; cases h
  | cons p rest ih =>
    intro hnd hmem
    rcases p with ⟨k0, v0⟩
    rw [List.map_cons, List.nodup_cons] at hnd
    rcases List.mem_cons.mp hmem with heq | hmem2
    · rw [Prod.mk.injEq] at heq
      rw [mapGet, if_pos heq.1.symm, heq.2]
    · by_cases hk : k0 = k
      · exfalso
        apply hnd.1
        rw [hk]
        exact List.mem_map.mpr ⟨(k, v), hmem2, rfl⟩
      · rw [mapGet, if_neg hk]
        exact ih hnd.2 hmem2

theorem foldl_insert_fresh {κ : Type} [DecidableEq κ] (key : TokenEntry → κ) :
    ∀ (es : List TokenEntry) (l : List (κ × TokenEntry)),
      (∀ e ∈ es, key e ∉ l.map Prod.fst) → (es.map key).Nodup →
      es.foldl (fun acc e => mapInsert (key e) e acc) l =
        l ++ es.map (fun e => (key e, e)) := by
  intro es
  induction es with
  | nil => intro l _ _; simp
  | cons e es ih =>
    intro l hfresh hnd
    rw [List.map_cons, List.nodup_cons] at hnd
    rw [List.foldl_cons, mapInsert_fresh _ _ l (hfresh e (List.mem_cons_self e es))]
    have hfresh2 : ∀ e2 ∈ es, key e2 ∉ (l ++ [(key e, e)]).map Prod.fst := by
      intro e2 he2 hc
      rw [List.map_append, List.mem_append] at hc
      rcases hc with hc | hc
      · exact hfresh e2 (List.mem_cons_of_mem e he2) hc
      · simp only [List.map_cons, List.map_nil, List.mem_singleton] at hc
        exact hnd.1 (hc ▸ List.mem_map.mpr ⟨e2, he2, rfl⟩)
    rw [ih (l ++ [(key e, e)]) hfresh2 hnd.2, List.append_assoc, List.map_cons,
      List.singleton_append]

theorem insertAll_by_symbol : ∀ (es : List TokenEntry) (st : CacheState),
    (insertAll st es).by_symbol =
      es.foldl (fun acc e => mapInsert (symKey e) e acc) st.by_symbol := by
  intro es
  induction es with
  | nil => intro st; rfl
  | cons e es ih =>
    intro st
    rw [insertAll, List.foldl_cons, List.foldl_cons, ← insertAll]
    exact ih (st.insert e)

theorem insertAll_by_address : ∀ (es : List TokenEntry) (st : CacheState),
    (insertAll st es).by_address =
      es.foldl (fun acc e => mapInsert (addrKey e) e acc) st.by_address := by
  intro es
  induction es with
  | nil => intro st; rfl
  | cons e es ih =>
    intro st
    rw [insertAll, List.foldl_cons, List.foldl_cons, ← insertAll]
    exact ih (st.insert e)

theorem insertAll_consistent (es : List TokenEntry)
    (hs : (es.map symKey).Nodup) (ha : (es.map addrKey).Nodup) :
    registryConsistent (insertAll CacheState.new es) := by
  have hsym : (insertAll CacheState.new es).by_symbol =
      es.map (fun e => (symKey e, e)) := by
    rw [insertAll_by_symbol]
    simpa [CacheState.new] using foldl_insert_fresh symKey es [] (by simp) hs
  have haddr : (insertAll CacheState.new es).by_address =
      es.map (fun e => (addrKey e, e)) := by
    rw [insertAll_by_address]
    simpa [CacheState.new] using foldl_insert_fresh addrKey es [] (by simp) ha
  have hsymKeys : ((es.map (fun e => (symKey e, e))).map Prod.fst).Nodup := by
    rw [List.map_map]
    exact hs
  have haddrKeys : ((es.map (fun e => (addrKey e, e))).map Prod.fst).Nodup := by
    rw [List.map_map]
    exact ha
  refine ⟨by rw [hsym, haddr]; simp, ?_, ?_⟩
  · intro k e hget
    rw [hsym] at hget
    obtain ⟨e2, he2, heq⟩ := List.mem_map.mp (mapGet_some_mem k e _ hget)
    rw [Prod.mk.injEq] at heq
    rw [haddr]
    exact mapGet_of_mem_nodup _ _ _ haddrKeys
      (List.mem_map.mpr ⟨e, heq.2 ▸ he2, rfl⟩)
  · intro k e hget
    rw [haddr] at hget
    obtain ⟨e2, he2, heq⟩ := List.mem_map.mp (mapGet_some_mem k e _ hget)
    rw [Prod.mk.injEq] at heq
    rw [hsym]
    exact mapGet_of_mem_nodup _ _ _ hsymKeys
      (List.mem_map.mpr ⟨e, heq.2 ▸ he2, rfl⟩)

theorem refreshApply_cache (chain : Nat) :
    ∀ (tokens : List TokenListToken) (st : CacheState) (n : Nat),
    (tokens.foldl
      (fun acc t =>
        if t.chain_id ≠ chain then acc
        else
          match t.address with
          | none => acc
          | some addr =>
            (acc.1.insert
              { address := addr, symbol := t.symbol, name := t.name
                decimals := t.decimals, chain_id := t.chain_id },
              acc.2 + 1))
      (st, n)).1 = insertAll st (effectiveEntries chain tokens) := by
  intro tokens
  induction tokens with
  | nil => intro st n; rfl
  | cons t ts ih =>
    intro st n
    rw [List.foldl_cons, effectiveEntries, List.filterMap_cons]
    by_cases hc : t.chain_id ≠ chain
    · rw [if_pos hc, if_pos hc]
      exact ih st n
    · rw [if_neg hc, if_neg hc]
      cases haddr : t.address with
      | none =>
        dsimp only [Option.map_none']
        exact ih st n
      | some addr =>
        dsimp only [Option.map_some']
        exact ih (st.insert _) (n + 1)

theorem refreshApply_cache_eq (chain : Nat) (tokens : List TokenListToken)
    (st : CacheState) :
    (refreshApply chain tokens st).1 = insertAll st (effectiveEntries chain tokens) := by
  rw [refreshApply]
  exact refreshApply_cache chain tokens st 0

/-- C1: for every `U256` raw integer `x` and every `u8` decimal count `d`,
`parse_units (format_units x d) d` succeeds and returns exactly `x`. -/
theorem C1_parse_format_units_roundtrip (x d : Nat) (hx : x < TWO256)
    (_hd : d < 256) :
    parse_units (format_units x d) d = some x :=
  parse_format_units_roundtrip x d hx

/-- Witness for C1 at `x = 123456789`, `d = 18`. -/
theorem C1_witness :
    123456789 < TWO256 ∧ 18 < 256 ∧
    parse_units (format_units 123456789 18) 18 = some 123456789 :=
  ⟨by decide, by decide,
    C1_parse_format_units_roundtrip 123456789 18 (by decide) (by decide)⟩

/-- C2 counterexample: in `try_v3_swap`, when a pool exists on tier 100 and
every quote is zero output, the claim predicts `InsufficientLiquidity`, but
the code returns `PoolNotFound` (the best-fee slot is never filled by a
zero quote). -/
theorem C2_counterexample :
    v3CexEnv.pool 100 = true ∧
    v3CexEnv.pool 500 = false ∧ v3CexEnv.pool 3000 = false ∧
    v3CexEnv.pool 10000 = false ∧
    v3CexEnv.quote 100 = some 0 ∧
    try_v3_swap v3CexEnv = .error .poolNotFound ∧
    try_v3_swap v3CexEnv ≠ .error .insufficientLiquidity :=
  ⟨rfl, rfl, rfl, rfl, rfl, rfl, by
    have he : try_v3_swap v3CexEnv = .error .poolNotFound := rfl
    rw [he]
    simp⟩

/-- C2 (amended): the V3 attempt scans every fee tier and keeps the tier with
the maximum successfully quoted output for the exact requested input amount;
it fails with `PoolNotFound` both when no tier has a pool and when every
existing pool's quote is zero output or fails, and it never returns
`InsufficientLiquidity`. -/
theorem C2_v3_route_selection : ∀ env : V3Env,
    ((∀ f ∈ ALL_FEES, env.pool f = false) → try_v3_swap env = .error .poolNotFound) ∧
    ((∀ f ∈ ALL_FEES, env.pool f = true → env.quote f = none ∨ env.quote f = some 0) →
      try_v3_swap env = .error .poolNotFound) ∧
    try_v3_swap env ≠ .error .insufficientLiquidity ∧
    (∀ fee out, try_v3_swap env = .ok (fee, out) →
      fee ∈ ALL_FEES ∧ env.pool fee = true ∧ env.quote fee = some out ∧ 0 < out ∧
      ∀ f ∈ ALL_FEES, env.pool f = true → ∀ o, env.quote f = some o → o ≤ out) :=
  v3_selection_amended

/-- C3 counterexample: a refresh from the empty cache whose token list holds
two entries with the same uppercase symbol but distinct addresses leaves
`by_symbol` with one entry and `by_address` with two, so the two indexes do
not contain the same number of entries and the claimed invariant fails. -/
theorem C3_counterexample :
    (refreshApply 1 [c3TokenA, c3TokenB] CacheState.new).1.by_symbol.length = 1 ∧
    (refreshApply 1 [c3TokenA, c3TokenB] CacheState.new).1.by_address.length = 2 ∧
    ¬registryConsistent (refreshApply 1 [c3TokenA, c3TokenB] CacheState.new).1 := by
  refine ⟨by decide, by decide, ?_⟩
  intro h
  have h1 := h.1
  revert h1
  decide

/-- C3 (amended): after a seed or refresh applied to an empty cache whose
inserted entries have pairwise-distinct uppercase-symbol keys and
pairwise-distinct address keys, `by_symbol` and `by_address` contain the
same number of entries and every entry is reachable from both indexes with
identical field values. -/
theorem C3_registry_index_consistency (es : List TokenEntry)
    (hs : (es.map symKey).Nodup) (ha : (es.map addrKey).Nodup) :
    registryConsistent (insertAll CacheState.new es) ∧
    ∀ chain tokens, effectiveEntries chain tokens = es →
      registryConsistent (refreshApply chain tokens CacheState.new).1 := by
  have hmain := insertAll_consistent es hs ha
  refine ⟨hmain, ?_⟩
  intro chain tokens heff
  rw [refreshApply_cache_eq, heff]
  exact hmain

/-- Witness for C3 (amended) at the fallback seed set. -/
theorem C3_witness :
    (fallback_tokens.map symKey).Nodup ∧ (fallback_tokens.map addrKey).Nodup ∧
    (registryConsistent (insertAll CacheState.new fallback_tokens) ∧
      ∀ chain tokens, effectiveEntries chain tokens = fallback_tokens →
        registryConsistent (refreshApply chain tokens CacheState.new).1) :=
  ⟨by decide, by decide,
    C3_registry_index_consistency fallback_tokens (by decide) (by decide)⟩

/-- C4: `get_price` for the wrapped native asset quoted in ETH returns the
price 1 with nominal source Uniswap V3 for every environment — the result
does not depend on any oracle or AMM response, so no on-chain state and no
successful RPC call can change it. -/
theorem C4_weth_eth_price_is_one : ∀ env : PriceEnv,
    get_price env WETH_ADDRESS .eth =
      .ok { tokenAddress := WETH_ADDRESS
            tokenSymbol := (env.metaSymbol WETH_ADDRESS).getD "UNKNOWN"
            tokenDecimals := (env.metaDecimals WETH_ADDRESS).getD 18
            price := 1
            quoteCurrency := .eth
            source := .uniswapV3
            timestamp := env.now } :=
  weth_eth_price_spec

/-- C6: a stale oracle round (`answeredInRound < roundId`) makes
`get_chainlink_price` fail with `PriceOracle`, and `get_price` swallows that
failure and falls through to the AMM path, so any price it returns does not
have the oracle as its source. -/
theorem C6_stale_round_soft_failure (env : PriceEnv) (token feed : Nat)
    (rd : OracleRoundData) (odec : Nat)
    (htok : token ≠ USDC_ADDRESS)
    (hfeed : chainlink_feeds token = some feed)
    (hround : env.oracleRound feed = some rd)
    (hodec : env.oracleDecimals feed = some odec)
    (hstale : rd.answeredInRound < rd.roundId) :
    (∀ symbol tdec, get_chainlink_price env token feed symbol tdec =
      .error .priceOracle) ∧
    get_price env token .usd = get_uniswap_price env token .usd
      ((env.metaSymbol token).getD "UNKNOWN") ((env.metaDecimals token).getD 18) ∧
    (∀ pi, get_price env token .usd = .ok pi → pi.source ≠ .chainlink) :=
  oracle_stale_soft_failure env token feed rd odec htok hfeed hround hodec hstale

/-- Witness for C6: WETH priced in USD against a stale ETH/USD round. -/
theorem C6_witness :
    WETH_ADDRESS ≠ USDC_ADDRESS ∧
    chainlink_feeds WETH_ADDRESS = some ETH_USD_FEED ∧
    c6Env.oracleRound ETH_USD_FEED = some
      { roundId := 2, answer := 300000000000, startedAt := 0
        updatedAt := 0, answeredInRound := 1 } ∧
    c6Env.oracleDecimals ETH_USD_FEED = some 8 ∧
    ((∀ symbol tdec, get_chainlink_price c6Env WETH_ADDRESS ETH_USD_FEED
        symbol tdec = .error .priceOracle) ∧
      get_price c6Env WETH_ADDRESS .usd = get_uniswap_price c6Env WETH_ADDRESS .usd
        ((c6Env.metaSymbol WETH_ADDRESS).getD "UNKNOWN")
        ((c6Env.metaDecimals WETH_ADDRESS).getD 18) ∧
      (∀ pi, get_price c6Env WETH_ADDRESS .usd = .ok pi →
        pi.source ≠ .chainlink)) :=
  ⟨by decide, by decide, rfl, rfl,
    C6_stale_round_soft_failure c6Env WETH_ADDRESS ETH_USD_FEED
      { roundId := 2, answer := 300000000000, startedAt := 0
        updatedAt := 0, answeredInRound := 1 } 8
      (by decide) (by decide) rfl rfl (by decide)⟩

/-- C7: the price-impact reference amount is 0.1% of the input clamped below
by 1000 raw units capped at the input itself (so it never exceeds the
input); the 10% ceiling never binds because `a / 1000 ≤ a / 10`; and for
`amount_in = 500` it equals `min 1000 500 = 500`. -/
theorem C7_reference_amount :
    (∀ a : Nat, calculate_reference_amount a = min (max (a / 1000) 1000) a ∧
      calculate_reference_amount a ≤ a) ∧
    calculate_reference_amount 500 = 500 :=
  reference_amount_spec

/-- C9: a freshly seeded mainnet registry resolves the wrapped-native and
stablecoin symbols even when every remote fetch fails with a transport
error — the lookup returns the seeded entry instead of propagating the
error. -/
theorem C9_fallback_seed_resolves : ∀ (e : AppError) (ttl now : Nat),
    (resolve_symbol ETHEREUM_MAINNET_CHAIN_ID ttl now (.error e)
      (populate_fallback_tokens CacheState.new) "WETH").1 = some wethEntry ∧
    (resolve_symbol ETHEREUM_MAINNET_CHAIN_ID ttl now (.error e)
      (populate_fallback_tokens CacheState.new) "USDC").1 = some usdcEntry := by
  intro e ttl now
  exact ⟨rfl, rfl⟩

/-- C10: `parse_units` trims whitespace before any validation (parsing any
string equals parsing its trim), and accepts an empty integer part:
`".5"` and `"  .5  "` both parse at 18 decimals to `5 * 10 ^ 17`. -/
theorem C10_parse_units_trim_and_bare_fraction :
    parse_units ".5".data 18 = some 500000000000000000 ∧
    parse_units "  .5  ".data 18 = some 500000000000000000 ∧
    ∀ (s : List Char) (d : Nat), parse_units s d = parse_units (strTrim s) d :=
  ⟨by decide, by decide, parse_units_strTrim⟩

theorem decDivNat_val (m d m2 σ2 : Nat) (hd : d ≠ 0)
    (h : decDivNat m d = some (m2, σ2)) :
    (m2 : ℚ) / 10 ^ σ2 = (m : ℚ) / d := by
  rw [decDivNat] at h
  cases hfind : (List.range 29).find? (fun σ => m * 10 ^ σ % d = 0) with
  | none =>
    rw [hfind] at h
    cases h
  | some σ =>
    rw [hfind] at h
    dsimp only at h
    by_cases hlt : m * 10 ^ σ / d < 2 ^ 96
    · rw [if_pos hlt, Option.some.injEq, Prod.mk.injEq] at h
      obtain ⟨hm2, hσ2⟩ := h
      have hdvd : d ∣ m * 10 ^ σ :=
        Nat.dvd_of_mod_eq_zero (by simpa using List.find?_some hfind)
      have hmul : m * 10 ^ σ / d * d = m * 10 ^ σ := Nat.div_mul_cancel hdvd
      subst hm2
      subst hσ2
      rw [div_eq_div_iff (by positivity) (Nat.cast_ne_zero.mpr hd)]
      exact_mod_cast congrArg (Nat.cast (R := ℚ)) hmul
    · rw [if_neg hlt] at h
      cases h

theorem v2PriceDec_exact (rin rout din out_dec m1 σ1 m2 σ2 : Nat)
    (hrin : rin ≠ 0) (hro : rout < 2 ^ 96) (hdin : din ≤ 18)
    (hnum : rout * 10 ^ din < 2 ^ 96) (hri : rin < 2 ^ 96)
    (h1 : decDivNat (rout * 10 ^ din) rin = some (m1, σ1))
    (h2 : decDivNat m1 (10 ^ (σ1 + out_dec)) = some (m2, σ2)) :
    v2PriceDec rin rout din out_dec =
      some ((rout : ℚ) * 10 ^ din / rin / 10 ^ out_dec) := by
  rw [v2PriceDec, if_neg (not_le.mpr hro), if_neg (not_lt.mpr hdin),
    if_neg (not_le.mpr hnum), if_neg (not_le.mpr hri), h1]
  dsimp only
  rw [h2]
  dsimp only
  rw [Option.some.injEq]
  have v1 := decDivNat_val _ _ _ _ hrin h1
  have v2 := decDivNat_val _ _ _ _ (pow_ne_zero (σ1 + out_dec) (by norm_num)) h2
  rw [v2]
  have hcast : ((10 ^ (σ1 + out_dec) : ℕ) : ℚ) = 10 ^ σ1 * 10 ^ out_dec := by
    push_cast
    rw [pow_add]
  rw [hcast, ← div_div, v1]
  push_cast
  ring

/-- C5 counterexample: `amount_out = 2^96` passes the program's `u128` range
check but exceeds `Decimal`'s 96-bit mantissa, so `Decimal::from(u128)`
panics and no minimum output — in particular not the claimed floor — is
produced; the model reports the panic as `none`. -/
theorem C5_counterexample :
    (2 ^ 96 : Nat) < 2 ^ 128 ∧
    compute_amount_out_min (2 ^ 96) { mantissa := 0, scale := 0 } = none ∧
    ∀ r : Nat, compute_amount_out_min (2 ^ 96) { mantissa := 0, scale := 0 } ≠
      some (.ok r) := by
  have hnone : compute_amount_out_min (2 ^ 96) { mantissa := 0, scale := 0 } =
      none := rfl
  refine ⟨by norm_num, hnone, ?_⟩
  intro r h
  rw [hnone] at h
  cases h

/-- C5 (amended): whenever the `Decimal` arithmetic stays exactly
representable — the quoted output below the 96-bit mantissa bound (past
which `Decimal::from(u128)` panics although the `u128` range check passes),
the slippage percentage `s ∈ [0, 100]` carrying at most 26 fractional
digits, and the product mantissa within 96 bits — the simulated swap's
minimum output equals `⌊amount_out * (1 - s / 100)⌋` and never exceeds the
expected output. -/
theorem C5_amount_out_minimum (amount_out : Nat) (s : Dec96)
    (hm : s.mantissa ≤ 100 * 10 ^ s.scale) (hσ : s.scale ≤ 26)
    (ha : amount_out < 2 ^ 96)
    (hprod : amount_out * (10 ^ (s.scale + 2) - s.mantissa) < 2 ^ 96) :
    compute_amount_out_min amount_out s =
      some (.ok (Int.toNat ⌊(amount_out : ℚ) * (1 - Dec96.toRat s / 100)⌋)) ∧
    Int.toNat ⌊(amount_out : ℚ) * (1 - Dec96.toRat s / 100)⌋ ≤ amount_out := by
  have hsm : s.mantissa ≤ 10 ^ (s.scale + 2) := by
    refine le_trans hm (le_of_eq ?_)
    rw [pow_add]
    ring
  have hqeq : (amount_out : ℚ) * (1 - Dec96.toRat s / 100) =
      ((amount_out * (10 ^ (s.scale + 2) - s.mantissa) : ℕ) : ℚ) /
        ((10 ^ (s.scale + 2) : ℕ) : ℚ) := by
    rw [Dec96.toRat, Nat.cast_mul, Nat.cast_sub hsm]
    push_cast
    rw [pow_add]
    have h10 : ((10 : ℚ) ^ s.scale) ≠ 0 := by positivity
    field_simp
    ring
  have hkey : Int.toNat ⌊(amount_out : ℚ) * (1 - Dec96.toRat s / 100)⌋ =
      amount_out * (10 ^ (s.scale + 2) - s.mantissa) / 10 ^ (s.scale + 2) := by
    rw [hqeq, Int.floor_toNat, Nat.floor_div_eq_div]
  have hdivle : amount_out * (10 ^ (s.scale + 2) - s.mantissa) / 10 ^ (s.scale + 2) ≤
      amount_out := by
    calc amount_out * (10 ^ (s.scale + 2) - s.mantissa) / 10 ^ (s.scale + 2)
        ≤ amount_out * 10 ^ (s.scale + 2) / 10 ^ (s.scale + 2) :=
          Nat.div_le_div_right (Nat.mul_le_mul_left _ (Nat.sub_le _ _))
      _ = amount_out := Nat.mul_div_cancel _ (pow_pos (by norm_num) _)
  have h1 : decDiv100 s = some { mantissa := s.mantissa, scale := s.scale + 2 } := by
    rw [decDiv100, if_pos (by omega)]
  have h2 : decOneSub { mantissa := s.mantissa, scale := s.scale + 2 } =
      some { mantissa := 10 ^ (s.scale + 2) - s.mantissa, scale := s.scale + 2 } := by
    rw [decOneSub]
    exact if_pos hsm
  have h3 : decFromU128 amount_out = some { mantissa := amount_out, scale := 0 } := by
    rw [decFromU128, if_pos ha]
  have h4 : decMul { mantissa := amount_out, scale := 0 }
      { mantissa := 10 ^ (s.scale + 2) - s.mantissa, scale := s.scale + 2 } =
      some { mantissa := amount_out * (10 ^ (s.scale + 2) - s.mantissa),
             scale := 0 + (s.scale + 2) } := by
    rw [decMul]
    refine if_pos ⟨hprod, ?_⟩
    show 0 + (s.scale + 2) ≤ 28
    omega
  have h5 : decimal_to_u128 { mantissa := amount_out * (10 ^ (s.scale + 2) - s.mantissa),
                              scale := 0 + (s.scale + 2) } =
      .ok (amount_out * (10 ^ (s.scale + 2) - s.mantissa) / 10 ^ (s.scale + 2)) := by
    rw [decimal_to_u128]
    dsimp only
    rw [Nat.zero_add]
    rw [if_neg (by
      have hle := Nat.div_le_self (amount_out * (10 ^ (s.scale + 2) - s.mantissa))
        (10 ^ (s.scale + 2))
      have h96 : (2 : ℕ) ^ 96 < 2 ^ 128 := by norm_num
      omega)]
  refine ⟨?_, hkey ▸ hdivle⟩
  rw [compute_amount_out_min, h1]
  dsimp only
  rw [h2]
  dsimp only
  rw [if_pos (lt_trans ha (by norm_num)), h3]
  dsimp only
  rw [h4]
  dsimp only
  rw [h5, hkey]

/-- Witness for C5 (amended) at `amount_out = 1000000`, `s = 0.5` (mantissa
5, scale 1). -/
theorem C5_witness :
    ({ mantissa := 5, scale := 1 } : Dec96).mantissa ≤
      100 * 10 ^ ({ mantissa := 5, scale := 1 } : Dec96).scale ∧
    ({ mantissa := 5, scale := 1 } : Dec96).scale ≤ 26 ∧
    (1000000 : Nat) < 2 ^ 96 ∧
    1000000 * (10 ^ (({ mantissa := 5, scale := 1 } : Dec96).scale + 2) -
      ({ mantissa := 5, scale := 1 } : Dec96).mantissa) < 2 ^ 96 ∧
    (compute_amount_out_min 1000000 { mantissa := 5, scale := 1 } =
      some (.ok (Int.toNat ⌊(1000000 : ℚ) *
        (1 - Dec96.toRat { mantissa := 5, scale := 1 } / 100)⌋)) ∧
    Int.toNat ⌊(1000000 : ℚ) *
      (1 - Dec96.toRat { mantissa := 5, scale := 1 } / 100)⌋ ≤ 1000000) :=
  ⟨by decide, by decide, by decide, by decide,
    C5_amount_out_minimum 1000000 { mantissa := 5, scale := 1 }
      (by decide) (by decide) (by decide) (by decide)⟩

/-- C8 counterexample: reserves in `[2^96, 2^112)` are valid `uint112`
values and pass the program's `u128` range checks, yet exceed `Decimal`'s
96-bit mantissa, so `Decimal::from(u128)` panics (`v2PriceDec … = none`);
and even tiny in-range reserves such as `(3, 7)` give a quotient `7/3`
that does not terminate within 28 fractional digits, so `rust_decimal`
rounds and the exact reserve-ratio rational is not produced. -/
theorem C8_counterexample :
    (2 ^ 96 : Nat) < 2 ^ 112 ∧
    v2PriceDec 3 (2 ^ 96) 18 6 = none ∧
    v2PriceDec 3 7 0 6 = none ∧
    (List.range 29).find? (fun σ => 7 * 10 ^ σ % 3 = 0) = none := by
  refine ⟨by norm_num, rfl, rfl, by decide⟩

/-- C8 (amended): on a live direct pair, `get_uniswap_v2_price` returns
`PoolNotFound` when the factory reports the zero pair address and
`InsufficientLiquidity` when both reserves are zero; and whenever the
`Decimal` computation stays exactly representable — the input reserve
nonzero, both reserves and the `10^in_decimals`-scaled numerator below the
96-bit mantissa bound (reserves in `[2^96, 2^112)` pass the `u128` checks
but make `Decimal::from(u128)` panic), `in_decimals ≤ 18` (past which
`10i64.pow` overflows), and both divisions terminating within 28
fractional digits — the `Decimal`-faithful price `v2PriceDec` and the
returned price both equal the exact rational
`reserve_out * 10^in_decimals / reserve_in / 10^out_decimals`; outside
that regime `rust_decimal` rounds to 28 significant digits or panics. -/
theorem C8_v2_reserve_ratio_price (env : PriceEnv)
    (token_in token_out din pair r0 r1 t0 : Nat)
    (hpair : env.v2PairOf token_in token_out = some pair)
    (hres : env.v2Reserves pair = some (r0, r1))
    (ht0 : env.v2Token0 pair = some t0)
    (hr0 : r0 < 2 ^ 112) (hr1 : r1 < 2 ^ 112) :
    (pair = 0 → get_uniswap_v2_price env token_in token_out din =
      .error .poolNotFound) ∧
    (pair ≠ 0 → r0 = 0 → r1 = 0 →
      get_uniswap_v2_price env token_in token_out din =
        .error .insufficientLiquidity) ∧
    (∀ m1 σ1 m2 σ2 : Nat, pair ≠ 0 →
      (if t0 = token_in then r0 else r1) ≠ 0 →
      (if t0 = token_in then r1 else r0) < 2 ^ 96 →
      din ≤ 18 →
      (if t0 = token_in then r1 else r0) * 10 ^ din < 2 ^ 96 →
      (if t0 = token_in then r0 else r1) < 2 ^ 96 →
      decDivNat ((if t0 = token_in then r1 else r0) * 10 ^ din)
        (if t0 = token_in then r0 else r1) = some (m1, σ1) →
      decDivNat m1 (10 ^ (σ1 + (if token_out = USDC_ADDRESS then 6 else 18))) =
        some (m2, σ2) →
      v2PriceDec (if t0 = token_in then r0 else r1)
          (if t0 = token_in then r1 else r0) din
          (if token_out = USDC_ADDRESS then 6 else 18) =
        some (((if t0 = token_in then r1 else r0) : ℚ) * 10 ^ din /
          ((if t0 = token_in then r0 else r1) : ℚ) /
          10 ^ (if token_out = USDC_ADDRESS then 6 else 18)) ∧
      get_uniswap_v2_price env token_in token_out din =
        .ok (((if t0 = token_in then r1 else r0) : ℚ) * 10 ^ din /
          ((if t0 = token_in then r0 else r1) : ℚ) /
          10 ^ (if token_out = USDC_ADDRESS then 6 else 18))) := by
  obtain ⟨b1, b2, b3⟩ := v2_price_spec env token_in token_out din pair r0 r1 t0
    hpair hres ht0 hr0 hr1
  refine ⟨b1, b2, ?_⟩
  intro m1 σ1 m2 σ2 hp hrin hro hdin hnum hri h1 h2
  refine ⟨?_, b3 hp hrin⟩
  rw [v2PriceDec_exact _ _ _ _ _ _ _ _ hrin hro hdin hnum hri h1 h2,
    apply_ite (Nat.cast : ℕ → ℚ) (t0 = token_in) r1 r0,
    apply_ite (Nat.cast : ℕ → ℚ) (t0 = token_in) r0 r1]

/-- Witness for C8 (amended): reserves `(2000000, 1000000000)` with
`token0 = token_in = 7`, 18 input decimals and a USDC quote; both decimal
divisions terminate immediately and the price is exactly
`10^9 * 10^18 / (2 * 10^6) / 10^6 = 5 * 10^14`. -/
theorem C8_witness :
    v2PriceDec 2000000 1000000000 18 6 =
      some ((1000000000 : ℚ) * 10 ^ 18 / (2000000 : ℚ) / 10 ^ 6) ∧
    get_uniswap_v2_price c8Env 7 USDC_ADDRESS 18 =
      .ok ((1000000000 : ℚ) * 10 ^ 18 / (2000000 : ℚ) / 10 ^ 6) := by
  have h := (C8_v2_reserve_ratio_price c8Env 7 USDC_ADDRESS 18 5 2000000
      1000000000 7 rfl rfl rfl (by norm_num) (by norm_num)).2.2
    500000000000000000000 0 500000000000000 0
    (by norm_num) (by norm_num) (by norm_num) (by norm_num) (by norm_num)
    (by norm_num) (by rfl) (by rfl)
  exact h
